import Mathlib

/-!
# Drip: a shallow embedding of the `email` service

The development follows the Go package `email` (`cfg.go`, `tmpl.go`, `user.go`,
`email.go`, `series.go`).

* The relational store is a record of row lists, one list per table.  A SQL
  statement is a function on that record which performs the statement's effect
  (`INSERT .. ON CONFLICT DO NOTHING`, `UPDATE .. WHERE`, `SELECT`).  The store is
  taken to be available: a statement always executes.  The two statements of
  `updateUserSeriesStep` are the exception: the error they return is not the
  error of the call (`TriggerSeries` logs it and goes on), so the answer of the
  store to each of them is part of the environment.
* The token codec (`securecookie`), the Markdown renderer (`blackfriday`), the
  mail transport (`mailgun`) and the campaign source (`graphql`) are libraries or
  services outside the package; they are fields of an environment record `Env`,
  and each may fail where its Go signature returns an `error`.
* An instant is an integer number of nanoseconds; `NOW()` and `time.Now()` are a
  parameter `now` of each API call.  A `time.Duration` is an `int64` count of
  nanoseconds: `time.Duration(n) * time.Second` wraps around (`secondsDuration`),
  and `t.Add(d)` is `t + d`, which for an instant of the clock stays within the
  range of `time.Time`.
* A pointer that the Go code dereferences unconditionally is a plain value; a
  pointer that may be `nil` is an `Option`.
* Inside `TriggerSeries` the goroutines run one after the other in queue order
  and their results are received in that order; the sends write to `"user"` and
  `"email"`, the receiving loop to `"user_series"` and `"user_series_step"`.
* `runCalls` runs whole calls one after the other.  `runEvents` also runs
  `TriggerSeries` calls that overlap: the part of a call up to the end of its
  goroutines and its receiving loop are separate events, and other events may
  come between them.
-/

namespace Drip

/-- Go `error` values carry a message. -/
abbrev Error := String

/-- Instants, in nanoseconds. -/
abbrev Time := Int

/-- The `int64` an integer wraps around to (two's complement). -/
def wrapInt64 (x : Int) : Int :=
  (x + 9223372036854775808) % 18446744073709551616 - 9223372036854775808

/-- Go `time.Duration(n) * time.Second`, for `n` an `int`: the `int64` count of
nanoseconds, wrapped around when `n` seconds exceed the range of
`time.Duration`. -/
def secondsDuration (n : Int) : Int :=
  wrapInt64 (n * 1000000000)

/-! ## tmpl.go -/

structure TemplateFile where
  Name : String
  URL : String
  Width : Int
  Height : Int
deriving DecidableEq

structure Template where
  ID : String
  Subject : String
  Sender : String
  HTMLBody : String
  TextBody : String
  Files : List TemplateFile
deriving DecidableEq

/-! ## series.go: campaign definitions -/

structure StreamStep where
  ID : String
  DelaySeconds : Int
  Template : Template
deriving DecidableEq

structure Stream where
  ID : String
  StreamSteps : List StreamStep
deriving DecidableEq

/-- The body of the `for i, s := range stream.StreamSteps` loop of `findStep`,
started at index `i`; `rest` is the part of the slice from index `i` on. -/
def findStepLoop (steps : List StreamStep) (id : String) :
    Nat → List StreamStep → Option StreamStep × Option StreamStep × Bool
  | _, [] => (none, none, false)
  | i, s :: rest =>
    if s.ID = id then
      (some s, (if steps.length > i + 1 then steps[i + 1]? else none), true)
    else findStepLoop steps id (i + 1) rest

/-- Go `findStep(stream, id) (curr, next, ok)`. -/
def findStep (stream : Stream) (id : String) :
    Option StreamStep × Option StreamStep × Bool :=
  findStepLoop stream.StreamSteps id 0 stream.StreamSteps

/-! ## user.go: the token codec -/

structure emailTokenData where
  Email : String
  EmailID : Int
deriving DecidableEq

/-- The zero value of `emailTokenData` (`var data emailTokenData`). -/
def emailTokenData.zero : emailTokenData := ⟨"", 0⟩

/-- The `*securecookie.SecureCookie` held in `tokenCookie`, with the key fixed.
`Encode name value` returns the token or an error.  `Decode name value dst`
returns the error (or `none` for `nil`) together with the contents it leaves in
`dst`, which it was handed holding `dst`. -/
structure SecureCookie where
  Encode : String → emailTokenData → Except Error String
  Decode : String → String → emailTokenData → Option Error × emailTokenData

/-- Go `encodeEmailToken`. -/
def encodeEmailToken (tokenCookie : SecureCookie) (email : String) (emailID : Int) :
    Except Error String :=
  tokenCookie.Encode "token" { Email := email, EmailID := emailID }

/-- Go `decodeEmailToken(token) (email, emailID, err)`: the value of `err` that
`Decode` assigned is not the one returned; the `return` statement names `nil`. -/
def decodeEmailToken (tokenCookie : SecureCookie) (token : String) :
    String × Int × Option Error :=
  let data := emailTokenData.zero
  let (_err, data) := tokenCookie.Decode "token" token data
  (data.Email, data.EmailID, none)

/-- The codec law the round trip rests on: under the same key and name, `Decode`
of what `Encode` produced reports no error and leaves the encoded value in
`dst`. -/
def SecureCookie.Inverts (c : SecureCookie) : Prop :=
  ∀ name v tok dst, c.Encode name v = .ok tok → c.Decode name tok dst = (none, v)

/-- A small codec used to instantiate statements: it knows three tokens. -/
def sampleCookie : SecureCookie where
  Encode := fun name v =>
    if name = "token" ∧ v = ⟨"ann@example.com", 1⟩ then .ok "t1"
    else if name = "token" ∧ v = ⟨"ann@example.com", 2⟩ then .ok "t2"
    else if name = "token" ∧ v = ⟨"ann@example.com", 3⟩ then .ok "t3"
    else .error "the value is too long"
  Decode := fun name tok dst =>
    if name = "token" ∧ tok = "t1" then (none, ⟨"ann@example.com", 1⟩)
    else if name = "token" ∧ tok = "t2" then (none, ⟨"ann@example.com", 2⟩)
    else if name = "token" ∧ tok = "t3" then (none, ⟨"ann@example.com", 3⟩)
    else (some "the value is not valid", dst)

/-! ## cfg.go and the services outside the package -/

structure Config where
  StrapiURL : String
  MailgunDomain : String
deriving DecidableEq

/-- An inline attachment added with `msg.AddReaderInline(f.Name, &imageReader{url: ..})`. -/
structure InlineReader where
  name : String
  url : String
deriving DecidableEq

/-- What `Send` hands to the transport: the message built with `mg.NewMessage`
for the configured domain, and the settings applied to it. -/
structure Message where
  domain : String
  sender : String
  subject : String
  text : String
  recipient : String
  trackingOpens : Bool
  trackingClicks : Bool
  html : String
  inlines : List InlineReader
deriving DecidableEq

/-- The type `queuedEmail` of series.go: a due enrollment and its step. -/
structure queuedEmail where
  Email : String
  SeriesID : String
  StepID : String
deriving DecidableEq

/-- The collaborators of the package.
* `tokenCookie`: the package variable of that name;
* `markdown`: `blackfriday.Run` with the package's `htmlRenderer`;
* `mgSend`: `mg.Send`, returning the delivery id or an error;
* `gqlStreams`: `gql.Query` for `streams(where: {name: $name})`;
* `insertStepErr`, `updateSeriesErr`: the error, if any, with which the store
  answers the first and the second statement of `updateUserSeriesStep` for a
  queue entry. -/
structure Env where
  cfg : Config
  tokenCookie : SecureCookie
  markdown : String → String
  mgSend : Message → Except Error String
  gqlStreams : String → Except Error (List Stream)
  insertStepErr : queuedEmail → Option Error
  updateSeriesErr : queuedEmail → Option Error

/-! ## The store -/

/-- A row of table `"user"`. -/
structure UserRow where
  email : String
  optin : Bool
  optin_changed : Time
deriving DecidableEq

/-- A row of table `"email"`; `mailgun_id` and `sent` are null until the
transport has accepted the message. -/
structure EmailRow where
  id : Int
  email : String
  template_id : String
  created : Time
  mailgun_id : Option String
  sent : Option Time
deriving DecidableEq

/-- A row of table `"user_series"`; `next_step_id` and `next_step_ts` are nullable. -/
structure UserSeriesRow where
  email : String
  series_id : String
  next_step_id : Option String
  next_step_ts : Option Time
  started : Time
deriving DecidableEq

/-- A row of table `"user_series_step"`. -/
structure UserSeriesStepRow where
  email : String
  series_id : String
  step_id : String
  email_id : Int
  executed : Time
deriving DecidableEq

/-- A row of table `"unsubscribe_event"`. -/
structure UnsubscribeEventRow where
  email : String
  email_id : Int
  event_time : Time
deriving DecidableEq

/-- The five tables, the sequence that generates `email.id`, and the log of the
messages handed to the transport (every call of `mg.Send`, accepted or not). -/
structure State where
  user : List UserRow
  email : List EmailRow
  email_id_seq : Int
  user_series : List UserSeriesRow
  user_series_step : List UserSeriesStepRow
  unsubscribe_event : List UnsubscribeEventRow
  mailgun_calls : List Message
deriving DecidableEq

/-- The store before any call: empty tables, the id sequence at its start. -/
def State.init : State :=
  { user := [], email := [], email_id_seq := 1, user_series := [],
    user_series_step := [], unsubscribe_event := [], mailgun_calls := [] }

/-- The constraints the store enforces: the conflict targets of the package's
`ON CONFLICT` clauses are unique, and every `email.id` is unique and was drawn
from the sequence of `nextEmailID`, which starts at 1.  They hold in `State.init`
and after every call (`runCalls_WF`). -/
structure State.WF (s : State) : Prop where
  user_key : (s.user.map fun u => u.email).Nodup
  series_key : (s.user_series.map fun us => (us.email, us.series_id)).Nodup
  step_key : (s.user_series_step.map fun r => (r.email, r.series_id, r.step_id)).Nodup
  email_key : (s.email.map fun e => e.id).Nodup
  email_seq : ∀ e ∈ s.email, 1 ≤ e.id ∧ e.id < s.email_id_seq
  seq_pos : 1 ≤ s.email_id_seq

/-! ## user.go: consent -/

structure UnsubscribeParams where
  Token : String
deriving DecidableEq

/-- Go `ensureUserCreated`: `INSERT INTO "user" .. VALUES ($1, true, NOW())
ON CONFLICT (email) DO NOTHING`. -/
def ensureUserCreated (email : String) (now : Time) (s : State) : State :=
  if s.user.any (fun u => u.email = email) then s
  else { s with user := s.user ++ [{ email := email, optin := true, optin_changed := now }] }

/-- Go `isOptedIn`: `SELECT optin FROM "user" WHERE email = $1`, and `false` when
there is no row. -/
def isOptedIn (email : String) (s : State) : Bool :=
  match s.user.find? (fun u => u.email = email) with
  | none => false
  | some u => u.optin

/-- The first statement of `Unsubscribe`: `UPDATE "user" SET optin = false,
optin_changed = NOW() WHERE email = $1 AND optin`. -/
def optOut (email : String) (now : Time) (s : State) : State :=
  { s with user := s.user.map fun u =>
      if u.email = email ∧ u.optin = true then { u with optin := false, optin_changed := now }
      else u }

/-- The second statement of `Unsubscribe`: `INSERT INTO "unsubscribe_event"`. -/
def insertUnsubscribeEvent (email : String) (emailID : Int) (now : Time) (s : State) : State :=
  { s with unsubscribe_event :=
      s.unsubscribe_event ++ [{ email := email, email_id := emailID, event_time := now }] }

/-- Go `Unsubscribe`; the result is the returned `error`. -/
def Unsubscribe (env : Env) (now : Time) (params : UnsubscribeParams) (s : State) :
    Option Error × State :=
  match decodeEmailToken env.tokenCookie params.Token with
  | (_, _, some err) => (some err, s)
  | (email, emailID, none) =>
    let s := optOut email now s
    let s := insertUnsubscribeEvent email emailID now s
    (none, s)

/-! ## email.go: the send pipeline -/

structure SendParams where
  Template : Template
  Email : String
deriving DecidableEq

structure SendResponse where
  ID : Int
  Sent : Bool
deriving DecidableEq

/-- Modelled from the spec: the `id` column of table `"email"`, whose declaration
(the schema migration) is not among the sources, is a "numeric id (generated on
insert)"; the value is the next one of the table's sequence. -/
def nextEmailID (s : State) : Int := s.email_id_seq

/-- The first statement on `"email"` in `Send`: `INSERT INTO "email" (email,
template_id, created) VALUES ($1, $2, NOW()) RETURNING id`. -/
def insertEmail (email templateID : String) (now : Time) (s : State) : Int × State :=
  let id := nextEmailID s
  (id, { s with
    email := s.email ++ [{ id := id, email := email, template_id := templateID,
                           created := now, mailgun_id := none, sent := none }],
    email_id_seq := s.email_id_seq + 1 })

/-- The last statement of `Send`: `UPDATE "email" SET mailgun_id = $2,
sent = NOW() WHERE id = $1`. -/
def markEmailSent (id : Int) (mailgunID : String) (now : Time) (s : State) : State :=
  { s with email := s.email.map fun e =>
      if e.id = id then { e with mailgun_id := some mailgunID, sent := some now } else e }

/-- The placeholder that `Send` and `convertMarkdown` replace by the token. -/
def tokenPlaceholder : String := "\x7b\x7bToken\x7d\x7d"

/-- Go `convertMarkdown(template, token)`. -/
def convertMarkdown (env : Env) (template token : String) : String :=
  let tmp := template.replace tokenPlaceholder token
  env.markdown tmp

/-- The message `Send` composes for a template, a recipient and a token. -/
def composeMessage (env : Env) (params : SendParams) (token : String) : Message :=
  let tmpl := params.Template
  let plaintext := tmpl.TextBody.replace tokenPlaceholder token
  let html := convertMarkdown env params.Template.HTMLBody token
  { domain := env.cfg.MailgunDomain
    sender := params.Template.Sender
    subject := tmpl.Subject
    text := plaintext
    recipient := params.Email
    trackingOpens := true
    trackingClicks := false
    html := html
    inlines := tmpl.Files.map fun f => { name := f.Name, url := env.cfg.StrapiURL ++ f.URL } }

/-- Go `Send`. -/
def Send (env : Env) (now : Time) (params : SendParams) (s : State) :
    Except Error SendResponse × State :=
  let s := ensureUserCreated params.Email now s
  if isOptedIn params.Email s = false then
    (.ok { ID := 0, Sent := false }, s)
  else
    let tmpl := params.Template
    let (id, s) := insertEmail params.Email tmpl.ID now s
    match encodeEmailToken env.tokenCookie params.Email id with
    | .error err => (.error err, s)
    | .ok token =>
      let msg := composeMessage env params token
      let s := { s with mailgun_calls := s.mailgun_calls ++ [msg] }
      match env.mgSend msg with
      | .error err => (.error err, s)
      | .ok mailgunID =>
        let s := markEmailSent id mailgunID now s
        (.ok { ID := id, Sent := true }, s)

/-! ## series.go: the series engine -/

structure TriggerSeriesParams where
  Email : String
  SeriesName : String
deriving DecidableEq

/-- Go `getSeries`. -/
def getSeries (env : Env) (name : String) : Except Error Stream :=
  match env.gqlStreams name with
  | .error err => .error err
  | .ok [] => .error "unknown stream"
  | .ok (s :: _) => .ok s

/-- The statement of `BeginSeries`: `INSERT INTO "user_series" (email, series_id,
next_step_id, next_step_ts, started) VALUES ($1, $2, $3, $4, NOW())
ON CONFLICT (email, series_id) DO NOTHING`. -/
def insertUserSeries (email seriesID stepID : String) (ts now : Time) (s : State) : State :=
  if s.user_series.any (fun us => us.email = email ∧ us.series_id = seriesID) then s
  else { s with user_series := s.user_series ++
          [{ email := email, series_id := seriesID, next_step_id := some stepID,
             next_step_ts := some ts, started := now }] }

/-- Go `BeginSeries`; the result is the returned `error`. -/
def BeginSeries (env : Env) (now : Time) (params : TriggerSeriesParams) (s : State) :
    Option Error × State :=
  let s := ensureUserCreated params.Email now s
  match getSeries env params.SeriesName with
  | .error err => (some err, s)
  | .ok ser =>
    match ser.StreamSteps with
    | [] => (some "missing initial step", s)
    | step :: _ =>
      let delay := secondsDuration step.DelaySeconds
      (none, insertUserSeries params.Email params.SeriesName step.ID (now + delay) now s)

/-- The rows of the join and `WHERE` clause of `queryDueEmails`, before `LIMIT`:
`"user_series" us INNER JOIN "user" u ON (u.email = us.email) WHERE next_step_ts
<= NOW() AND next_step_id IS NOT NULL AND u.optin`. -/
def dueRows (now : Time) (s : State) : List queuedEmail :=
  s.user_series.flatMap fun us =>
    (s.user.filter fun u => u.email = us.email).filterMap fun u =>
      match us.next_step_ts, us.next_step_id with
      | some ts, some stepID =>
        if ts ≤ now ∧ u.optin = true then
          some { Email := us.email, SeriesID := us.series_id, StepID := stepID }
        else none
      | _, _ => none

/-- Go `queryDueEmails`: the due rows, `LIMIT 10`. -/
def queryDueEmails (now : Time) (s : State) : List queuedEmail :=
  (dueRows now s).take 10

/-- The first statement of `updateUserSeriesStep`: `INSERT INTO "user_series_step"
.. ON CONFLICT (email, series_id, step_id) DO UPDATE SET email_id = $4`. -/
def upsertUserSeriesStep (e : queuedEmail) (emailID : Int) (now : Time) (s : State) : State :=
  if s.user_series_step.any
      (fun r => r.email = e.Email ∧ r.series_id = e.SeriesID ∧ r.step_id = e.StepID) then
    { s with user_series_step := s.user_series_step.map fun r =>
        if r.email = e.Email ∧ r.series_id = e.SeriesID ∧ r.step_id = e.StepID then
          { r with email_id := emailID }
        else r }
  else
    { s with user_series_step := s.user_series_step ++
        [{ email := e.Email, series_id := e.SeriesID, step_id := e.StepID,
           email_id := emailID, executed := now }] }

/-- The second statement of `updateUserSeriesStep`: `UPDATE "user_series" SET
next_step_id = $3, next_step_ts = $4 WHERE email = $1 AND series_id = $2`. -/
def setNextStep (e : queuedEmail) (nextID : Option String) (nextTS : Option Time)
    (s : State) : State :=
  { s with user_series := s.user_series.map fun us =>
      if us.email = e.Email ∧ us.series_id = e.SeriesID then
        { us with next_step_id := nextID, next_step_ts := nextTS }
      else us }

/-- Go `updateUserSeriesStep`; the result is the returned `error`.  A statement
the store answers with an error has no effect, and the first error ends the
function. -/
def updateUserSeriesStep (env : Env) (now : Time) (e : queuedEmail)
    (next : Option StreamStep) (emailID : Int) (s : State) : Option Error × State :=
  match env.insertStepErr e with
  | some err => (some ("insert user_series_step: " ++ err), s)
  | none =>
    let s := upsertUserSeriesStep e emailID now s
    let (nextID, nextTS) : Option String × Option Time :=
      match next with
      | some n => (some n.ID, some (now + secondsDuration n.DelaySeconds))
      | none => (none, none)
    match env.updateSeriesErr e with
    | some err => (some ("update user_series: " ++ err), s)
    | none => (none, setNextStep e nextID nextTS s)

/-- The first block of `TriggerSeries`: every distinct series id of the queue is
resolved once with `getSeries`; an error of any resolution is the error of the
group. -/
def resolveStreams (env : Env) :
    List queuedEmail → List (String × Stream) → Except Error (List (String × Stream))
  | [], streams => .ok streams
  | e :: queue, streams =>
    let id := e.SeriesID
    if (streams.lookup id).isSome then resolveStreams env queue streams
    else
      match getSeries env id with
      | .error err => .error err
      | .ok ser => resolveStreams env queue ((id, ser) :: streams)

/-- The local type `result` of `TriggerSeries`. -/
structure result where
  e : queuedEmail
  next : Option StreamStep
  emailID : Int
  err : Option Error
deriving DecidableEq

/-- The goroutine `TriggerSeries` starts for the queue entry `e`.  Every series id
of the queue has been resolved when it runs; the first case stands for the
dereference of a missing map entry. -/
def sendTask (env : Env) (streams : List (String × Stream)) (now : Time) (e : queuedEmail)
    (s : State) : result × State :=
  match streams.lookup e.SeriesID with
  | none => ({ e := e, next := none, emailID := 0, err := some "unknown series" }, s)
  | some ser =>
    match findStep ser e.StepID with
    | (some curr, next, true) =>
      match Send env now { Template := curr.Template, Email := e.Email } s with
      | (.error err, s) => ({ e := e, next := none, emailID := 0, err := some err }, s)
      | (.ok resp, s) => ({ e := e, next := next, emailID := resp.ID, err := none }, s)
    | _ =>
      ({ e := e, next := none, emailID := 0, err := some ("unknown step " ++ e.StepID) }, s)

/-- The goroutines of all queue entries, run one after the other in queue order;
the results are listed in that order. -/
def sendTasks (env : Env) (streams : List (String × Stream)) (now : Time) :
    List queuedEmail → State → List result × State
  | [], s => ([], s)
  | e :: queue, s =>
    let (r, s) := sendTask env streams now e s
    let (rs, s) := sendTasks env streams now queue s
    (r :: rs, s)

/-- The body of the receiving loop of `TriggerSeries` for one result; an error of
`updateUserSeriesStep` is logged and the loop goes on. -/
def collectResult (env : Env) (now : Time) (r : result) (s : State) : State :=
  if r.err ≠ none ∨ r.emailID = 0 then s
  else (updateUserSeriesStep env now r.e r.next r.emailID s).2

/-- The receiving loop of `TriggerSeries`. -/
def collectResults (env : Env) (now : Time) : List result → State → State
  | [], s => s
  | r :: rs, s => collectResults env now rs (collectResult env now r s)

/-- Go `TriggerSeries`; the result is the returned `error`. -/
def TriggerSeries (env : Env) (now : Time) (s : State) : Option Error × State :=
  let queue := queryDueEmails now s
  if queue = [] then (none, s)
  else
    match resolveStreams env queue [] with
    | .error err => (some err, s)
    | .ok streams =>
      let (res, s) := sendTasks env streams now queue s
      (none, collectResults env now res s)

/-! ## Sequences of API calls -/

/-- A call of one of the four endpoints, with the environment and the time at
which it runs. -/
inductive Call where
  | send (env : Env) (now : Time) (params : SendParams)
  | beginSeries (env : Env) (now : Time) (params : TriggerSeriesParams)
  | triggerSeries (env : Env) (now : Time)
  | unsubscribe (env : Env) (now : Time) (params : UnsubscribeParams)

/-- The store after a call. -/
def Call.exec : Call → State → State
  | .send env now params, s => (Send env now params s).2
  | .beginSeries env now params, s => (BeginSeries env now params s).2
  | .triggerSeries env now, s => (TriggerSeries env now s).2
  | .unsubscribe env now params, s => (Unsubscribe env now params s).2

/-- The store after a sequence of calls that run one after the other. -/
def runCalls : List Call → State → State
  | [], s => s
  | c :: cs, s => runCalls cs (c.exec s)

/-! ## Overlapping calls of TriggerSeries -/

/-- A `TriggerSeries` call whose goroutines have returned and whose receiving
loop has not run yet. -/
structure InFlight where
  env : Env
  results : List result

/-- The store and the `TriggerSeries` calls in flight. -/
structure World where
  store : State
  inflight : List InFlight

/-- A step of a run in which `TriggerSeries` calls may overlap with other calls:
a whole call; the part of a `TriggerSeries` up to the end of its goroutines (due
query, campaign resolution, sends), which leaves its results in flight; or the
receiving loop of the call in flight at position `i`, run at time `now`. -/
inductive Event where
  | call (c : Call)
  | triggerSends (env : Env) (now : Time)
  | triggerReceive (i : Nat) (now : Time)

/-- The configuration after an event.  A `TriggerSeries` that returns before its
goroutines (empty queue, failed resolution) leaves nothing in flight. -/
def Event.exec : Event → World → World
  | .call c, w => { w with store := c.exec w.store }
  | .triggerSends env now, w =>
    let queue := queryDueEmails now w.store
    if queue = [] then w
    else
      match resolveStreams env queue [] with
      | .error _ => w
      | .ok streams =>
        let (res, s) := sendTasks env streams now queue w.store
        { store := s, inflight := w.inflight ++ [{ env := env, results := res }] }
  | .triggerReceive i now, w =>
    match w.inflight[i]? with
    | none => w
    | some f =>
      { store := collectResults f.env now f.results w.store,
        inflight := w.inflight.eraseIdx i }

/-- The configuration after a sequence of events. -/
def runEvents : List Event → World → World
  | [], w => w
  | ev :: evs, w => runEvents evs (ev.exec w)

/-- The configuration with the given store and no call in flight. -/
def World.idle (s : State) : World := { store := s, inflight := [] }

/-! ## Observations on the store -/

/-- The rows of `"user_series"` for a recipient and a campaign. -/
def enrollments (email seriesID : String) (s : State) : List UserSeriesRow :=
  s.user_series.filter fun us => us.email = email ∧ us.series_id = seriesID

/-- The rows of `"user_series_step"` for a recipient and a campaign. -/
def stepRecords (email seriesID : String) (s : State) : List UserSeriesStepRow :=
  s.user_series_step.filter fun r => r.email = email ∧ r.series_id = seriesID

/-- The rows of `"user"` of the recipients other than `email`. -/
def otherUsers (email : String) (s : State) : List UserRow :=
  s.user.filter fun u => u.email ≠ email

/-- The row of `"user_series"` after an advance to `next` at time `now`: the two
columns that `updateUserSeriesStep` sets. -/
def advanceRow (now : Time) (next : Option StreamStep) (us : UserSeriesRow) : UserSeriesRow :=
  { us with next_step_id := next.map fun n => n.ID,
            next_step_ts := next.map fun n => now + secondsDuration n.DelaySeconds }

/-- The campaign is complete for the pair: its enrollment exists and the next
step id is null. -/
def Completed (email seriesID : String) (s : State) : Prop :=
  enrollments email seriesID s ≠ [] ∧
  ∀ us ∈ enrollments email seriesID s, us.next_step_id = none

/-- The environment a call runs in. -/
def Call.env : Call → Env
  | .send env _ _ => env
  | .beginSeries env _ _ => env
  | .triggerSeries env _ => env
  | .unsubscribe env _ _ => env

/-- The step a `TriggerSeries` at `now` executes for the pair and advances it
from: the step id of the pair's queue entry, when the campaigns resolve and the
entry's result passes the test of the receiving loop (no error, non-zero email
id); `none` when the call does not advance the pair. -/
def advancedStep (env : Env) (now : Time) (email seriesID : String) (s : State) :
    Option String :=
  match resolveStreams env (queryDueEmails now s) [] with
  | .error _ => none
  | .ok streams =>
    ((sendTasks env streams now (queryDueEmails now s) s).1.find? fun r =>
      r.e.Email = email ∧ r.e.SeriesID = seriesID ∧ r.err = none ∧ r.emailID ≠ 0).map
      fun r => r.e.StepID

/-- The step a call advances the pair from; only `TriggerSeries` advances. -/
def Call.advancedStep (email seriesID : String) : Call → State → Option String
  | .triggerSeries env now, s => Drip.advancedStep env now email seriesID s
  | _, _ => none

/-- The steps a sequence of calls executes for the pair with a successful
advance, in the order of the calls. -/
def advancedSteps (email seriesID : String) : List Call → State → List String
  | [], _ => []
  | c :: cs, s =>
    (c.advancedStep email seriesID s).toList ++ advancedSteps email seriesID cs (c.exec s)

/-- The enrollment of the pair stands at index `k` of the campaign: it has one
row, whose next-step id is the id of the step at index `k`, and null when `k` is
the number of steps. -/
def AtStep (ser : Stream) (email seriesID : String) (k : Nat) (s : State) : Prop :=
  ∃ us, enrollments email seriesID s = [us] ∧
    us.next_step_id = (ser.StreamSteps[k]?).map fun st => st.ID

/-- The step execution records of an enrollment after the upsert of
`updateUserSeriesStep` for one of its steps: the record of the step gets the new
email id, or a record is added when the step has none. -/
def upsertRows (e : queuedEmail) (emailID : Int) (now : Time)
    (rows : List UserSeriesStepRow) : List UserSeriesStepRow :=
  if rows.any (fun r => r.step_id = e.StepID) then
    rows.map fun r => if r.step_id = e.StepID then { r with email_id := emailID } else r
  else
    rows ++ [{ email := e.Email, series_id := e.SeriesID, step_id := e.StepID,
               email_id := emailID, executed := now }]

/-- The rows of `"email"` of a recipient that carry a delivery id. -/
def delivered (email : String) (s : State) : List EmailRow :=
  s.email.filter fun row => row.email = email ∧ row.mailgun_id.isSome = true

/-- The mail delivered to a recipient: the id and the template id of each
delivered row, in the order of the table. -/
def mailLog (email : String) (s : State) : List (Int × String) :=
  (delivered email s).map fun row => (row.id, row.template_id)

/-- The messages handed to the transport for a recipient. -/
def attempts (email : String) (s : State) : List Message :=
  s.mailgun_calls.filter fun m => m.recipient = email

/-- The id of the template of the step that the goroutine of a queue entry sends:
the template of `curr` of `findStep` in the resolved campaign. -/
def stepTemplate (streams : List (String × Stream)) (e : queuedEmail) : String :=
  match streams.lookup e.SeriesID with
  | none => ""
  | some ser =>
    match (findStep ser e.StepID).1 with
    | some curr => curr.Template.ID
    | none => ""

/-- The result is for the recipient and passes the test of the receiving loop. -/
def result.passesFor (email : String) (r : result) : Bool :=
  r.e.Email = email ∧ r.err = none ∧ r.emailID ≠ 0

/-- The call sends no mail to the recipient outside the campaign: it is not a
`Send` to the recipient, and not a `BeginSeries` of the recipient into another
campaign. -/
def Call.onlySeries (email seriesID : String) : Call → Bool
  | .send _ _ params => params.Email ≠ email
  | .beginSeries _ _ params => params.Email ≠ email ∨ params.SeriesName = seriesID
  | .triggerSeries _ _ => true
  | .unsubscribe _ _ _ => true

/-- The store executes both statements of `updateUserSeriesStep` for the pair in
the environment of the call. -/
def Call.storeAnswers (email seriesID : String) (c : Call) : Prop :=
  ∀ stepID, c.env.insertStepErr ⟨email, seriesID, stepID⟩ = none ∧
    c.env.updateSeriesErr ⟨email, seriesID, stepID⟩ = none

/-- The state of the run of a campaign for a pair after `k` advances, for a
recipient whose delivered mail was `base` and who had been sent `sent0` messages
when the run began:
* the store satisfies its constraints;
* the enrollment stands at index `k`;
* the recipient is enrolled in no other campaign;
* the rows of `"email"` delivered to the recipient are those of `base` followed
  by, in order, one row per step among the first `k`, each with the template of
  its step, and the step execution records of the pair carry, in order, the ids
  of these rows;
* the step execution records of the pair are, in order, those of the first `k`
  steps;
* the transport was handed at least `k` more messages for the recipient. -/
structure Progress (ser : Stream) (email seriesID : String) (base : List (Int × String))
    (sent0 : Nat) (k : Nat) (s : State) : Prop where
  wf : s.WF
  pointer : AtStep ser email seriesID k s
  only : ∀ key ∈ s.user_series.map (fun us => (us.email, us.series_id)),
    key.1 = email → key.2 = seriesID
  mails : ∃ rows, mailLog email s = base ++ rows ∧
    rows.map Prod.snd = (ser.StreamSteps.take k).map (fun st => st.Template.ID) ∧
    (stepRecords email seriesID s).map (fun rec => rec.email_id) = rows.map Prod.fst
  steps : (stepRecords email seriesID s).map (fun rec => rec.step_id) =
    (ser.StreamSteps.take k).map fun st => st.ID
  sent : sent0 + k ≤ (attempts email s).length

/-! ## Sample data, used to instantiate statements -/

def sampleTemplate : Template :=
  { ID := "welcome", Subject := "Hello", Sender := "team@example.com",
    HTMLBody := "**hi**", TextBody := "hi", Files := [] }

def followupTemplate : Template :=
  { ID := "followup", Subject := "Hello again", Sender := "team@example.com",
    HTMLBody := "**more**", TextBody := "more", Files := [] }

/-- A campaign of two steps, the second one minute after the first. -/
def sampleStream : Stream :=
  { ID := "17", StreamSteps :=
      [{ ID := "step1", DelaySeconds := 0, Template := sampleTemplate },
       { ID := "step2", DelaySeconds := 60, Template := followupTemplate }] }

/-- A campaign whose second step comes 9223372037 seconds after the first, one
second more than `time.Duration` can hold. -/
def longStream : Stream :=
  { ID := "18", StreamSteps :=
      [{ ID := "step1", DelaySeconds := 0, Template := sampleTemplate },
       { ID := "step2", DelaySeconds := 9223372037, Template := followupTemplate }] }

def sampleEnv : Env :=
  { cfg := { StrapiURL := "https://cms.example.com", MailgunDomain := "mg.example.com" }
    tokenCookie := sampleCookie
    markdown := fun md => md
    mgSend := fun _ => .ok "mg-1"
    gqlStreams := fun name => if name = "onboarding" then .ok [sampleStream] else .ok []
    insertStepErr := fun _ => none
    updateSeriesErr := fun _ => none }

/-- The sample environment with `onboarding` resolving to `longStream`. -/
def longEnv : Env :=
  { sampleEnv with
    gqlStreams := fun name => if name = "onboarding" then .ok [longStream] else .ok [] }

/-- A campaign of two steps, the second due as soon as the first is done. -/
def quickStream : Stream :=
  { ID := "19", StreamSteps :=
      [{ ID := "step1", DelaySeconds := 0, Template := sampleTemplate },
       { ID := "step2", DelaySeconds := 0, Template := followupTemplate }] }

/-- The sample environment with `onboarding` resolving to `quickStream`. -/
def quickEnv : Env :=
  { sampleEnv with
    gqlStreams := fun name => if name = "onboarding" then .ok [quickStream] else .ok [] }

/-- The sample environment with a store that rejects the `UPDATE "user_series"`
of `updateUserSeriesStep`. -/
def faultyEnv : Env :=
  { sampleEnv with updateSeriesErr := fun _ => some "connection lost" }

/-- A store in which `bob@example.com` has opted out. -/
def sampleOptedOut : State :=
  { State.init with
    user := [{ email := "bob@example.com", optin := false, optin_changed := 3 }] }

/-- A store in which `ann@example.com` is enrolled in `onboarding` and due for
`stepID`. -/
def sampleDue (stepID : String) : State :=
  { State.init with
    user := [{ email := "ann@example.com", optin := true, optin_changed := 0 }]
    user_series := [{ email := "ann@example.com", series_id := "onboarding",
                      next_step_id := some stepID, next_step_ts := some 0, started := 0 }] }

/-- The queue entry of `sampleDue stepID`. -/
def sampleEntry (stepID : String) : queuedEmail :=
  { Email := "ann@example.com", SeriesID := "onboarding", StepID := stepID }

/-- The result of the goroutine for `sampleDue "gone"`: the campaign has no such
step. -/
def sampleFailed : result :=
  { e := sampleEntry "gone", next := none, emailID := 0, err := some "unknown step gone" }

/-- The result of the goroutine for `sampleDue "step1"`: the send returned id 1. -/
def sampleSent : result :=
  { e := sampleEntry "step1",
    next := some { ID := "step2", DelaySeconds := 60, Template := followupTemplate },
    emailID := 1, err := none }

/-- The enrollment request of the sample run. -/
def sampleParams : TriggerSeriesParams :=
  { Email := "ann@example.com", SeriesName := "onboarding" }

/-- The store after `ann@example.com` was enrolled in `onboarding` at time 0. -/
def sampleEnrolled : State :=
  (BeginSeries sampleEnv 0 sampleParams State.init).2

/-- Two triggers, each after the due time of the step it finds (the second step
is due one minute after the first trigger). -/
def sampleCalls : List Call :=
  [.triggerSeries sampleEnv 5, .triggerSeries sampleEnv 100000000000]

/-- Two `TriggerSeries` calls that overlap: both run their due query and their
sends before either runs its receiving loop. -/
def overlappingTriggers : List Event :=
  [.triggerSends sampleEnv 5, .triggerSends sampleEnv 6,
   .triggerReceive 0 7, .triggerReceive 0 8]

/-- The store after `ann@example.com` was enrolled in `onboarding`, resolving
to `quickStream`, at time 0. -/
def quickEnrolled : State :=
  (BeginSeries quickEnv 0 sampleParams State.init).2

/-- A `TriggerSeries` whose receiving loop runs last: after its sends, another
call advances the enrollment from the first step and a third completes it, and
only then are its own results received. -/
def lateReceive : List Event :=
  [.triggerSends quickEnv 5, .triggerSends quickEnv 6, .triggerReceive 0 7,
   .call (.triggerSeries quickEnv 8), .triggerReceive 0 9]

/-- A trigger whose `UPDATE "user_series"` the store rejects, and the next one. -/
def faultyCalls : List Call :=
  [.triggerSeries faultyEnv 5, .triggerSeries sampleEnv 6]

/-! ## findStep -/

theorem getElem?_guarded (steps : List StreamStep) (i : Nat) :
    (if steps.length > i + 1 then steps[i + 1]? else none) = steps[i + 1]? := by
  split
  · rfl
  · rename_i h
    exact (List.getElem?_eq_none (by omega)).symm

/-- The loop of `findStep`, entered at the end of a prefix `pre` that holds no
step with the id, either runs to the end without a match or stops at the first
index whose step has the id. -/
theorem findStepLoop_spec (steps : List StreamStep) (id : String) :
    ∀ (rest pre : List StreamStep), steps = pre ++ rest → (∀ t ∈ pre, t.ID ≠ id) →
      ((∀ s ∈ steps, s.ID ≠ id) ∧
          findStepLoop steps id pre.length rest = (none, none, false)) ∨
      (∃ i s, steps[i]? = some s ∧ s.ID = id ∧
          (∀ j t, j < i → steps[j]? = some t → t.ID ≠ id) ∧
          findStepLoop steps id pre.length rest = (some s, steps[i + 1]?, true)) := by
  intro rest
  induction rest with
  | nil =>
    intro pre hsteps hpre
    left
    refine ⟨?_, rfl⟩
    intro s hs
    rw [hsteps, List.append_nil] at hs
    exact hpre s hs
  | cons s rest ih =>
    intro pre hsteps hpre
    by_cases hid : s.ID = id
    · right
      refine ⟨pre.length, s, ?_, hid, ?_, ?_⟩
      · rw [hsteps, List.getElem?_append_right (Nat.le_refl _)]; simp
      · intro j t hj hjt
        rw [hsteps, List.getElem?_append_left hj] at hjt
        exact hpre t (List.getElem?_mem hjt)
      · simp only [findStepLoop, hid, if_true, getElem?_guarded]
    · have h := ih (pre ++ [s]) (by rw [hsteps]; simp) (by
        intro t ht
        rcases List.mem_append.mp ht with h | h
        · exact hpre t h
        · rw [List.mem_singleton.mp h]; exact hid)
      simpa only [findStepLoop, hid, if_false, List.length_append, List.length_singleton]
        using h

theorem findStep_cases (stream : Stream) (id : String) :
    ((∀ s ∈ stream.StreamSteps, s.ID ≠ id) ∧ findStep stream id = (none, none, false)) ∨
    (∃ i s, stream.StreamSteps[i]? = some s ∧ s.ID = id ∧
        (∀ j t, j < i → stream.StreamSteps[j]? = some t → t.ID ≠ id) ∧
        findStep stream id = (some s, stream.StreamSteps[i + 1]?, true)) := by
  have h := findStepLoop_spec stream.StreamSteps id stream.StreamSteps [] rfl (by simp)
  simpa [findStep] using h

/-- C10. `findStep` returns `ok = false`, with `curr` and `next` nil, exactly when
no step of the campaign has the id; otherwise `ok = true`, `curr` is the first
step in campaign order with that id, and `next` is the step right after it in
the list, nil exactly when `curr` is the last element. -/
theorem findStep_spec (stream : Stream) (id : String) :
    ((findStep stream id).2.2 = false ↔ ∀ s ∈ stream.StreamSteps, s.ID ≠ id) ∧
    ((findStep stream id).2.2 = false →
      (findStep stream id).1 = none ∧ (findStep stream id).2.1 = none) ∧
    ((findStep stream id).2.2 = true →
      ∃ i s, stream.StreamSteps[i]? = some s ∧ s.ID = id ∧
        (∀ j t, j < i → stream.StreamSteps[j]? = some t → t.ID ≠ id) ∧
        (findStep stream id).1 = some s ∧
        (findStep stream id).2.1 = stream.StreamSteps[i + 1]? ∧
        ((findStep stream id).2.1 = none ↔ i + 1 = stream.StreamSteps.length)) := by
  rcases findStep_cases stream id with ⟨hall, heq⟩ | ⟨i, s, hi, hid, hfirst, heq⟩
  · rw [heq]
    exact ⟨⟨fun _ => hall, fun _ => rfl⟩, fun _ => ⟨rfl, rfl⟩, fun h => by simp at h⟩
  · rw [heq]
    have hlt : i < stream.StreamSteps.length := by
      rcases Nat.lt_or_ge i stream.StreamSteps.length with h | h
      · exact h
      · rw [List.getElem?_eq_none h] at hi; cases hi
    refine ⟨⟨fun h => by simp at h, fun h => ?_⟩, fun h => by simp at h, fun _ => ?_⟩
    · exact absurd hid (h s (List.getElem?_mem hi))
    · refine ⟨i, s, hi, hid, hfirst, rfl, rfl, ?_⟩
      show stream.StreamSteps[i + 1]? = none ↔ _
      rw [List.getElem?_eq_none_iff]
      omega

/-! ## The token codec -/

theorem sampleCookie_inverts : sampleCookie.Inverts := by
  intro name v tok dst h
  simp only [sampleCookie] at h ⊢
  split at h
  · rename_i hc
    injection h with h
    subst h
    simp [hc.1, hc.2]
  · split at h
    · rename_i hc
      injection h with h
      subst h
      simp [hc.1, hc.2]
    · split at h
      · rename_i hc
        injection h with h
        subst h
        simp [hc.1, hc.2]
      · cases h

/-- C1. When the codec's `Decode` reports a failure for a token, `decodeEmailToken`
still returns a nil error, together with whatever `Decode` left in the
destination; `Unsubscribe` therefore goes on to run both of its statements for
that data and returns nil. -/
theorem decodeEmailToken_drops_error (env : Env) (token : String) (err : Error)
    (data : emailTokenData)
    (hfail : env.tokenCookie.Decode "token" token emailTokenData.zero = (some err, data)) :
    decodeEmailToken env.tokenCookie token = (data.Email, data.EmailID, none) ∧
    ∀ now s, Unsubscribe env now { Token := token } s =
      (none, insertUnsubscribeEvent data.Email data.EmailID now (optOut data.Email now s)) := by
  have h : decodeEmailToken env.tokenCookie token = (data.Email, data.EmailID, none) := by
    simp [decodeEmailToken, hfail]
  refine ⟨h, fun now s => ?_⟩
  simp [Unsubscribe, h]

/-- C4. When encoding `(r, id)` succeeds and the codec's `Decode` inverts its
`Encode`, decoding the token returns exactly `(r, id)`. -/
theorem decode_encode_roundtrip (c : SecureCookie) (hinv : c.Inverts) (r : String) (id : Int)
    (tok : String) (henc : encodeEmailToken c r id = .ok tok) :
    decodeEmailToken c tok = (r, id, none) := by
  have h := hinv "token" { Email := r, EmailID := id } tok emailTokenData.zero henc
  simp [decodeEmailToken, h]

/-! ## Consent and the send pipeline -/

theorem any_user_iff (email : String) (s : State) :
    s.user.any (fun u => u.email = email) = true ↔ ∃ u ∈ s.user, u.email = email := by
  simp [List.any_eq_true]

theorem ensureUserCreated_of_mem (email : String) (now : Time) (s : State)
    (h : ∃ u ∈ s.user, u.email = email) : ensureUserCreated email now s = s := by
  simp [ensureUserCreated, (any_user_iff email s).mpr h]

theorem ensureUserCreated_of_not_mem (email : String) (now : Time) (s : State)
    (h : ¬ ∃ u ∈ s.user, u.email = email) :
    ensureUserCreated email now s =
      { s with user := s.user ++ [{ email := email, optin := true, optin_changed := now }] } := by
  have h' : ¬ s.user.any (fun u => u.email = email) = true := fun hc =>
    h ((any_user_iff email s).mp hc)
  simp [ensureUserCreated, h']

/-- With a unique `email` column, the row `isOptedIn` reads is the recipient's row. -/
theorem find_user_of_mem (s : State) (hkey : (s.user.map fun u => u.email).Nodup)
    (u : UserRow) (hu : u ∈ s.user) :
    s.user.find? (fun v => v.email = u.email) = some u := by
  cases hf : s.user.find? (fun v => v.email = u.email) with
  | none =>
    have := List.find?_eq_none.mp hf u hu
    simp at this
  | some v =>
    have hv := List.mem_of_find?_eq_some hf
    have hve : v.email = u.email := by simpa using List.find?_some hf
    rw [List.inj_on_of_nodup_map hkey hv hu hve]

theorem isOptedIn_of_mem (s : State) (hkey : (s.user.map fun u => u.email).Nodup)
    (u : UserRow) (hu : u ∈ s.user) : isOptedIn u.email s = u.optin := by
  simp [isOptedIn, find_user_of_mem s hkey u hu]

/-- After `ensureUserCreated`, a recipient without an opted-out row is opted in. -/
theorem isOptedIn_ensureUserCreated (email : String) (now : Time) (s : State)
    (hnot : ∀ u ∈ s.user, u.email = email → u.optin = true) :
    isOptedIn email (ensureUserCreated email now s) = true := by
  by_cases h : ∃ u ∈ s.user, u.email = email
  · rw [ensureUserCreated_of_mem email now s h]
    unfold isOptedIn
    cases hf : s.user.find? (fun u => u.email = email) with
    | none =>
      obtain ⟨u, hu, hue⟩ := h
      have := List.find?_eq_none.mp hf u hu
      simp [hue] at this
    | some v =>
      have hv := List.mem_of_find?_eq_some hf
      have hve : v.email = email := by simpa using List.find?_some hf
      exact hnot v hv hve
  · rw [ensureUserCreated_of_not_mem email now s h]
    have hnone : s.user.find? (fun u => decide (u.email = email)) = none := by
      rw [List.find?_eq_none]
      intro u hu hc
      exact h ⟨u, hu, by simpa using hc⟩
    simp [isOptedIn, List.find?_append, hnone]

/-- C2. In a store that satisfies its constraints, for a recipient whose row has
opt-in false and for every template, `Send` returns
`{Sent: false}` with a nil error and changes nothing: no row is added to
`"email"`, no message is handed to the transport, and the `"user"` table, with
the recipient's opt-in flag, is as before. -/
theorem Send_not_opted_in (env : Env) (now : Time) (params : SendParams) (s : State)
    (hwf : s.WF) (u : UserRow) (hu : u ∈ s.user) (hemail : u.email = params.Email)
    (hopt : u.optin = false) :
    (Send env now params s).1 = .ok { ID := 0, Sent := false } ∧
    (Send env now params s).2.email = s.email ∧
    (Send env now params s).2.mailgun_calls = s.mailgun_calls ∧
    (Send env now params s).2.user = s.user ∧
    u ∈ (Send env now params s).2.user ∧
    isOptedIn params.Email (Send env now params s).2 = false := by
  have hens : ensureUserCreated params.Email now s = s :=
    ensureUserCreated_of_mem _ now s ⟨u, hu, hemail⟩
  have hin : isOptedIn params.Email s = false := by
    rw [← hemail, isOptedIn_of_mem s hwf.user_key u hu, hopt]
  have h : Send env now params s = (.ok { ID := 0, Sent := false }, s) := by
    simp [Send, hens, hin]
  rw [h]
  exact ⟨rfl, rfl, rfl, rfl, hu, hin⟩

theorem ensureUserCreated_email (email : String) (now : Time) (s : State) :
    (ensureUserCreated email now s).email = s.email := by
  unfold ensureUserCreated; split <;> rfl

theorem ensureUserCreated_email_id_seq (email : String) (now : Time) (s : State) :
    (ensureUserCreated email now s).email_id_seq = s.email_id_seq := by
  unfold ensureUserCreated; split <;> rfl

theorem ensureUserCreated_mailgun_calls (email : String) (now : Time) (s : State) :
    (ensureUserCreated email now s).mailgun_calls = s.mailgun_calls := by
  unfold ensureUserCreated; split <;> rfl

theorem ensureUserCreated_user_series (email : String) (now : Time) (s : State) :
    (ensureUserCreated email now s).user_series = s.user_series := by
  unfold ensureUserCreated; split <;> rfl

theorem ensureUserCreated_user_series_step (email : String) (now : Time) (s : State) :
    (ensureUserCreated email now s).user_series_step = s.user_series_step := by
  unfold ensureUserCreated; split <;> rfl

theorem ensureUserCreated_unsubscribe_event (email : String) (now : Time) (s : State) :
    (ensureUserCreated email now s).unsubscribe_event = s.unsubscribe_event := by
  unfold ensureUserCreated; split <;> rfl

/-- The update of the row just inserted under a fresh id touches no other row. -/
theorem markSent_fresh (rows : List EmailRow) (row : EmailRow) (mailgunID : String)
    (now : Time) (hfresh : ∀ e ∈ rows, e.id ≠ row.id) :
    (rows ++ [row]).map (fun e =>
        if e.id = row.id then { e with mailgun_id := some mailgunID, sent := some now } else e) =
      rows ++ [{ row with mailgun_id := some mailgunID, sent := some now }] := by
  rw [List.map_append]
  congr 1
  · calc rows.map _ = rows.map id :=
          List.map_congr_left (fun e he => by simp [hfresh e he])
      _ = rows := List.map_id rows
  · simp

/-- The pipeline of `Send` once consent is established, when the token is minted
and the transport accepts the message. -/
theorem Send_eq_of_accepted (env : Env) (now : Time) (params : SendParams) (s : State)
    (hin : isOptedIn params.Email (ensureUserCreated params.Email now s) = true)
    (token : String)
    (henc : encodeEmailToken env.tokenCookie params.Email (nextEmailID s) = .ok token)
    (mailgunID : String)
    (hsend : env.mgSend (composeMessage env params token) = .ok mailgunID) :
    Send env now params s =
      (.ok { ID := nextEmailID s, Sent := true },
       markEmailSent (nextEmailID s) mailgunID now
        { (insertEmail params.Email params.Template.ID now
            (ensureUserCreated params.Email now s)).2 with
          mailgun_calls := s.mailgun_calls ++ [composeMessage env params token] }) := by
  have hid : nextEmailID (ensureUserCreated params.Email now s) = nextEmailID s := by
    simp [nextEmailID, ensureUserCreated_email_id_seq]
  simp only [Send, hin, insertEmail, hid, henc, hsend, ensureUserCreated_mailgun_calls]
  simp

/-- C3. In a store that satisfies its constraints, for a recipient with no
opted-out row (never seen, or present with opt-in true) and for every template,
when the token is minted and the transport accepts the composed message,
`Send` returns `Sent = true` with the generated id, the `"email"` table gains
exactly one row (the earlier rows are unchanged), whose id is the generated one,
whose template id is the template's, and whose delivery id is the id the
transport returned; the transport was called once, with that message. -/
theorem Send_delivers (env : Env) (now : Time) (params : SendParams) (s : State)
    (hwf : s.WF) (hnot : ∀ u ∈ s.user, u.email = params.Email → u.optin = true)
    (token : String)
    (henc : encodeEmailToken env.tokenCookie params.Email (nextEmailID s) = .ok token)
    (mailgunID : String)
    (hsend : env.mgSend (composeMessage env params token) = .ok mailgunID) :
    (Send env now params s).1 = .ok { ID := nextEmailID s, Sent := true } ∧
    (Send env now params s).2.email = s.email ++
      [{ id := nextEmailID s, email := params.Email, template_id := params.Template.ID,
         created := now, mailgun_id := some mailgunID, sent := some now }] ∧
    (∀ e ∈ s.email, e.id ≠ nextEmailID s) ∧
    (Send env now params s).2.mailgun_calls =
      s.mailgun_calls ++ [composeMessage env params token] := by
  have hfresh : ∀ e ∈ s.email, e.id ≠ nextEmailID s := fun e he =>
    ne_of_lt (hwf.email_seq e he).2
  rw [Send_eq_of_accepted env now params s
    (isOptedIn_ensureUserCreated _ now s hnot) token henc mailgunID hsend]
  refine ⟨rfl, ?_, hfresh, rfl⟩
  have h := markSent_fresh s.email
    { id := nextEmailID s, email := params.Email, template_id := params.Template.ID,
      created := now, mailgun_id := none, sent := none } mailgunID now hfresh
  simpa [markEmailSent, insertEmail, ensureUserCreated_email, nextEmailID,
    ensureUserCreated_email_id_seq] using h

/-! ## BeginSeries -/

theorem filter_key_length_le_one {α β : Type} [DecidableEq β] (l : List α) (f : α → β)
    (hkey : (l.map f).Nodup) (k : β) : (l.filter fun x => f x = k).length ≤ 1 := by
  induction l with
  | nil => simp
  | cons a l ih =>
    rw [List.map_cons, List.nodup_cons] at hkey
    by_cases ha : f a = k
    · have hnone : l.filter (fun x => decide (f x = k)) = [] := by
        rw [List.filter_eq_nil_iff]
        intro x hx hc
        have hxk : f x = k := by simpa using hc
        exact hkey.1 (List.mem_map.mpr ⟨x, hx, by rw [hxk, ha]⟩)
      simp [List.filter_cons, ha, hnone]
    · simpa [List.filter_cons, ha] using ih hkey.2

theorem enrollments_length_le_one (email seriesID : String) (s : State) (hwf : s.WF) :
    (enrollments email seriesID s).length ≤ 1 := by
  have h := filter_key_length_le_one s.user_series (fun us => (us.email, us.series_id))
    hwf.series_key (email, seriesID)
  simpa [enrollments, Prod.ext_iff] using h

theorem any_enrollment_iff (email seriesID : String) (s : State) :
    s.user_series.any (fun us => us.email = email ∧ us.series_id = seriesID) = true ↔
      enrollments email seriesID s ≠ [] := by
  simp [enrollments, List.any_eq_true, List.filter_eq_nil_iff]

theorem insertUserSeries_of_enrolled (email seriesID stepID : String) (ts now : Time)
    (s : State) (h : enrollments email seriesID s ≠ []) :
    insertUserSeries email seriesID stepID ts now s = s := by
  simp only [insertUserSeries, (any_enrollment_iff email seriesID s).mpr h, if_true]

theorem enrollments_insertUserSeries_fresh (email seriesID stepID : String) (ts now : Time)
    (s : State) (h : enrollments email seriesID s = []) :
    enrollments email seriesID (insertUserSeries email seriesID stepID ts now s) =
      [{ email := email, series_id := seriesID, next_step_id := some stepID,
         next_step_ts := some ts, started := now }] := by
  have hany : ¬ s.user_series.any (fun us => us.email = email ∧ us.series_id = seriesID) = true :=
    fun hc => (any_enrollment_iff email seriesID s).mp hc h
  have h' : List.filter (fun us : UserSeriesRow =>
      decide (us.email = email ∧ us.series_id = seriesID)) s.user_series = [] := h
  unfold insertUserSeries
  rw [if_neg hany]
  show List.filter _ (s.user_series ++ _) = _
  rw [List.filter_append, h']
  simp

/-- No `BeginSeries` changes `"user_series"` when the pair is enrolled. -/
theorem BeginSeries_of_enrolled (env : Env) (now : Time) (params : TriggerSeriesParams)
    (s : State) (h : enrollments params.Email params.SeriesName s ≠ []) :
    (BeginSeries env now params s).2.user_series = s.user_series := by
  have h' : enrollments params.Email params.SeriesName
      (ensureUserCreated params.Email now s) ≠ [] := by
    simpa [enrollments, ensureUserCreated_user_series] using h
  unfold BeginSeries
  simp only
  split
  · exact ensureUserCreated_user_series _ _ _
  · split
    · exact ensureUserCreated_user_series _ _ _
    · simp only
      rw [insertUserSeries_of_enrolled _ _ _ _ _ _ h']
      exact ensureUserCreated_user_series _ _ _

/-- The enrollment after a `BeginSeries` that resolved a campaign with a first
step, for a pair not enrolled before. -/
theorem BeginSeries_fresh (env : Env) (now : Time) (params : TriggerSeriesParams)
    (s : State) (ser : Stream) (step : StreamStep) (rest : List StreamStep)
    (hser : getSeries env params.SeriesName = .ok ser) (hsteps : ser.StreamSteps = step :: rest)
    (h : enrollments params.Email params.SeriesName s = []) :
    enrollments params.Email params.SeriesName (BeginSeries env now params s).2 =
      [{ email := params.Email, series_id := params.SeriesName, next_step_id := some step.ID,
         next_step_ts := some (now + secondsDuration step.DelaySeconds), started := now }] := by
  have h' : enrollments params.Email params.SeriesName
      (ensureUserCreated params.Email now s) = [] := by
    simpa [enrollments, ensureUserCreated_user_series] using h
  simp only [BeginSeries, hser, hsteps]
  exact enrollments_insertUserSeries_fresh _ _ _ _ _ _ h'

theorem enrollments_congr (email seriesID : String) (s t : State)
    (h : s.user_series = t.user_series) :
    enrollments email seriesID s = enrollments email seriesID t := by
  simp [enrollments, h]

/-- C7. In a store that satisfies its constraints, for a campaign with at least
one step, after two calls of `BeginSeries` for the same recipient and campaign
there is exactly one enrollment row for the pair, and the second call changed
nothing in `"user_series"`, whatever its time and whatever the campaign source
answered; when the pair was not enrolled
before, the row's next-step id, next-due time and started time are those the
first call wrote (the first step's id, the first call's time plus
`time.Duration(step.DelaySeconds) * time.Second`, the first call's time); when it
was, the first call changed nothing either. -/
theorem BeginSeries_twice (env env2 : Env) (now now2 : Time) (params : TriggerSeriesParams)
    (s : State) (hwf : s.WF) (ser : Stream) (step : StreamStep) (rest : List StreamStep)
    (hser : getSeries env params.SeriesName = .ok ser)
    (hsteps : ser.StreamSteps = step :: rest) :
    (∃ row, enrollments params.Email params.SeriesName
        (BeginSeries env2 now2 params (BeginSeries env now params s).2).2 = [row]) ∧
    (BeginSeries env2 now2 params (BeginSeries env now params s).2).2.user_series =
      (BeginSeries env now params s).2.user_series ∧
    (enrollments params.Email params.SeriesName s = [] →
      enrollments params.Email params.SeriesName
          (BeginSeries env2 now2 params (BeginSeries env now params s).2).2 =
        [{ email := params.Email, series_id := params.SeriesName,
           next_step_id := some step.ID,
           next_step_ts := some (now + secondsDuration step.DelaySeconds),
           started := now }]) ∧
    (enrollments params.Email params.SeriesName s ≠ [] →
      (BeginSeries env now params s).2.user_series = s.user_series) := by
  have hone : ∃ row, enrollments params.Email params.SeriesName
      (BeginSeries env now params s).2 = [row] := by
    by_cases h : enrollments params.Email params.SeriesName s = []
    · exact ⟨_, BeginSeries_fresh env now params s ser step rest hser hsteps h⟩
    · rw [enrollments_congr _ _ _ s (BeginSeries_of_enrolled env now params s h)]
      have hle := enrollments_length_le_one params.Email params.SeriesName s hwf
      match hm : enrollments params.Email params.SeriesName s, h, hle with
      | [row], _, _ => exact ⟨row, rfl⟩
      | _ :: _ :: _, _, hle => simp at hle
  have hne : enrollments params.Email params.SeriesName (BeginSeries env now params s).2 ≠ [] := by
    obtain ⟨row, hrow⟩ := hone
    simp [hrow]
  have hsame := BeginSeries_of_enrolled env2 now2 params (BeginSeries env now params s).2 hne
  refine ⟨?_, hsame, fun h => ?_, fun h => BeginSeries_of_enrolled env now params s h⟩
  · rw [enrollments_congr _ _ _ _ hsame]
    exact hone
  · rw [enrollments_congr _ _ _ _ hsame]
    exact BeginSeries_fresh env now params s ser step rest hser hsteps h

/-! ## Unsubscribe -/

theorem decodeEmailToken_of_valid (c : SecureCookie) (token r : String) (id : Int)
    (hvalid : c.Decode "token" token emailTokenData.zero = (none, ⟨r, id⟩)) :
    decodeEmailToken c token = (r, id, none) := by
  simp [decodeEmailToken, hvalid]

theorem Unsubscribe_of_valid (env : Env) (now : Time) (token r : String) (id : Int) (s : State)
    (hvalid : env.tokenCookie.Decode "token" token emailTokenData.zero = (none, ⟨r, id⟩)) :
    Unsubscribe env now { Token := token } s =
      (none, insertUnsubscribeEvent r id now (optOut r now s)) := by
  simp [Unsubscribe, decodeEmailToken_of_valid env.tokenCookie token r id hvalid]

theorem optOut_optin (r : String) (now : Time) (s : State) :
    ∀ u ∈ (optOut r now s).user, u.email = r → u.optin = false := by
  intro u hu hr
  simp only [optOut, List.mem_map] at hu
  obtain ⟨v, _, hv⟩ := hu
  split at hv
  · rw [← hv]
  · rename_i hc
    rw [← hv] at hr ⊢
    cases ho : v.optin with
    | false => rfl
    | true => exact absurd ⟨hr, ho⟩ hc

/-- The update of `Unsubscribe` selects no row once the recipient is opted out. -/
theorem optOut_of_opted_out (r : String) (now : Time) (s : State)
    (h : ∀ u ∈ s.user, u.email = r → u.optin = false) : optOut r now s = s := by
  have hmap : s.user.map (fun u =>
      if u.email = r ∧ u.optin = true then { u with optin := false, optin_changed := now }
      else u) = s.user.map id :=
    List.map_congr_left (fun u hu => by
      have hc : ¬ (u.email = r ∧ u.optin = true) := fun hc => by
        have := h u hu hc.1
        rw [hc.2] at this
        cases this
      simp [hc])
  simp only [optOut, hmap, List.map_id]

theorem otherUsers_optOut (r : String) (now : Time) (s : State) :
    otherUsers r (optOut r now s) = otherUsers r s := by
  simp only [otherUsers, optOut, List.filter_map]
  have hfil : List.filter ((fun u : UserRow => decide (u.email ≠ r)) ∘ fun u =>
      if u.email = r ∧ u.optin = true then { u with optin := false, optin_changed := now }
      else u) s.user = List.filter (fun u => decide (u.email ≠ r)) s.user :=
    List.filter_congr (fun u _ => by
      simp only [Function.comp]
      split <;> rfl)
  rw [hfil]
  calc List.map _ (List.filter (fun u => decide (u.email ≠ r)) s.user)
      = List.map id (List.filter (fun u => decide (u.email ≠ r)) s.user) :=
        List.map_congr_left (fun u hu => by
          have hne : u.email ≠ r := by simpa using (List.mem_filter.mp hu).2
          simp [hne])
    _ = _ := List.map_id _

theorem isOptedIn_of_opted_out (r : String) (s : State)
    (h : ∀ u ∈ s.user, u.email = r → u.optin = false) : isOptedIn r s = false := by
  unfold isOptedIn
  cases hf : s.user.find? (fun u => u.email = r) with
  | none => rfl
  | some v =>
    exact h v (List.mem_of_find?_eq_some hf) (by simpa using List.find?_some hf)

/-- C8. With a token that decodes to `(r, id)`, `Unsubscribe` returns nil, leaves
every row of `r` with opt-in false (so `isOptedIn` answers false), appends exactly
one event `(r, id)` to `"unsubscribe_event"`, and leaves the rows of all other
recipients as they were.  A second call with the same token leaves the whole
`"user"` table as the first call left it (the flag stays false and
`optin_changed` is not rewritten, for `r` and for everyone else) and appends one
more event. -/
theorem Unsubscribe_twice (env : Env) (now now2 : Time) (token r : String) (id : Int)
    (s : State)
    (hvalid : env.tokenCookie.Decode "token" token emailTokenData.zero = (none, ⟨r, id⟩)) :
    (Unsubscribe env now { Token := token } s).1 = none ∧
    (∀ u ∈ (Unsubscribe env now { Token := token } s).2.user, u.email = r → u.optin = false) ∧
    isOptedIn r (Unsubscribe env now { Token := token } s).2 = false ∧
    (Unsubscribe env now { Token := token } s).2.unsubscribe_event =
      s.unsubscribe_event ++ [{ email := r, email_id := id, event_time := now }] ∧
    otherUsers r (Unsubscribe env now { Token := token } s).2 = otherUsers r s ∧
    (Unsubscribe env now2 { Token := token } (Unsubscribe env now { Token := token } s).2).1
      = none ∧
    (Unsubscribe env now2 { Token := token } (Unsubscribe env now { Token := token } s).2).2.user
      = (Unsubscribe env now { Token := token } s).2.user ∧
    (Unsubscribe env now2 { Token := token }
        (Unsubscribe env now { Token := token } s).2).2.unsubscribe_event =
      (Unsubscribe env now { Token := token } s).2.unsubscribe_event ++
        [{ email := r, email_id := id, event_time := now2 }] := by
  have hout : ∀ u ∈ (insertUnsubscribeEvent r id now (optOut r now s)).user,
      u.email = r → u.optin = false := optOut_optin r now s
  rw [Unsubscribe_of_valid env now2 token r id _ hvalid,
    Unsubscribe_of_valid env now token r id s hvalid]
  refine ⟨rfl, hout, isOptedIn_of_opted_out r _ hout, rfl, otherUsers_optOut r now s, rfl,
    ?_, rfl⟩
  show (optOut r now2 (insertUnsubscribeEvent r id now (optOut r now s))).user = _
  rw [optOut_of_opted_out r now2 _ hout]

/-! ## TriggerSeries: what the sends and the updates leave alone -/

/-- The function `Send` writes to `"user"` only through `ensureUserCreated`, and not at all to
the series tables or to `"unsubscribe_event"`. -/
theorem Send_frame (env : Env) (now : Time) (params : SendParams) (s : State) :
    (Send env now params s).2.user = (ensureUserCreated params.Email now s).user ∧
    (Send env now params s).2.user_series = s.user_series ∧
    (Send env now params s).2.user_series_step = s.user_series_step ∧
    (Send env now params s).2.unsubscribe_event = s.unsubscribe_event := by
  simp only [Send, insertEmail, markEmailSent]
  split
  · simp [ensureUserCreated_user_series, ensureUserCreated_user_series_step,
      ensureUserCreated_unsubscribe_event]
  · split
    · simp [ensureUserCreated_user_series, ensureUserCreated_user_series_step,
        ensureUserCreated_unsubscribe_event]
    · split <;>
        simp [ensureUserCreated_user_series, ensureUserCreated_user_series_step,
          ensureUserCreated_unsubscribe_event]

theorem sendTask_e (env : Env) (streams : List (String × Stream)) (now : Time)
    (e : queuedEmail) (s : State) : (sendTask env streams now e s).1.e = e := by
  unfold sendTask
  split
  · rfl
  · split
    · split <;> rfl
    · rfl

theorem sendTask_frame (env : Env) (streams : List (String × Stream)) (now : Time)
    (e : queuedEmail) (s : State) :
    ((sendTask env streams now e s).2.user = s.user ∨
      (sendTask env streams now e s).2.user = (ensureUserCreated e.Email now s).user) ∧
    (sendTask env streams now e s).2.user_series = s.user_series ∧
    (sendTask env streams now e s).2.user_series_step = s.user_series_step ∧
    (sendTask env streams now e s).2.unsubscribe_event = s.unsubscribe_event := by
  unfold sendTask
  split
  · exact ⟨Or.inl rfl, rfl, rfl, rfl⟩
  · split
    · rename_i curr next _
      have h := Send_frame env now { Template := curr.Template, Email := e.Email } s
      split
      · rename_i err s' heq
        have hs : s' = (Send env now { Template := curr.Template, Email := e.Email } s).2 := by
          rw [heq]
        rw [hs]
        exact ⟨Or.inr h.1, h.2⟩
      · rename_i resp s' heq
        have hs : s' = (Send env now { Template := curr.Template, Email := e.Email } s).2 := by
          rw [heq]
        rw [hs]
        exact ⟨Or.inr h.1, h.2⟩
    · exact ⟨Or.inl rfl, rfl, rfl, rfl⟩

theorem sendTasks_cons (env : Env) (streams : List (String × Stream)) (now : Time)
    (e : queuedEmail) (queue : List queuedEmail) (s : State) :
    sendTasks env streams now (e :: queue) s =
      ((sendTask env streams now e s).1 ::
          (sendTasks env streams now queue (sendTask env streams now e s).2).1,
        (sendTasks env streams now queue (sendTask env streams now e s).2).2) := by
  rfl

/-- The results of the goroutines are those of the queue entries, in order. -/
theorem sendTasks_e (env : Env) (streams : List (String × Stream)) (now : Time) :
    ∀ (queue : List queuedEmail) (s : State),
      (sendTasks env streams now queue s).1.map (fun r => r.e) = queue := by
  intro queue
  induction queue with
  | nil => intro s; rfl
  | cons e queue ih =>
    intro s
    rw [sendTasks_cons, List.map_cons, ih, sendTask_e]

/-- The goroutines write to neither series table, and leave `"user"` alone when
every recipient of the queue has a row. -/
theorem sendTasks_frame (env : Env) (streams : List (String × Stream)) (now : Time) :
    ∀ (queue : List queuedEmail) (s : State),
      (sendTasks env streams now queue s).2.user_series = s.user_series ∧
      (sendTasks env streams now queue s).2.user_series_step = s.user_series_step ∧
      (sendTasks env streams now queue s).2.unsubscribe_event = s.unsubscribe_event ∧
      ((∀ e ∈ queue, ∃ u ∈ s.user, u.email = e.Email) →
        (sendTasks env streams now queue s).2.user = s.user) := by
  intro queue
  induction queue with
  | nil => intro s; exact ⟨rfl, rfl, rfl, fun _ => rfl⟩
  | cons e queue ih =>
    intro s
    rw [sendTasks_cons]
    have h1 := sendTask_frame env streams now e s
    have h2 := ih (sendTask env streams now e s).2
    refine ⟨h2.1.trans h1.2.1, h2.2.1.trans h1.2.2.1, h2.2.2.1.trans h1.2.2.2, fun hq => ?_⟩
    have hu : (sendTask env streams now e s).2.user = s.user := by
      rcases h1.1 with h | h
      · exact h
      · rw [h, ensureUserCreated_of_mem e.Email now s (hq e (List.mem_cons_self _ _))]
    show (sendTasks env streams now queue (sendTask env streams now e s).2).2.user = s.user
    rw [h2.2.2.2 (by
      intro e' he'
      rw [hu]
      exact hq e' (List.mem_cons_of_mem _ he')), hu]

theorem filter_map_ite_other {α : Type} (l : List α) (p : α → Prop) [DecidablePred p]
    (q : α → Bool) (f : α → α) (hq : ∀ x, q (f x) = q x) (hpq : ∀ x, q x = true → ¬ p x) :
    (l.map (fun x => if p x then f x else x)).filter q = l.filter q := by
  induction l with
  | nil => rfl
  | cons a l ih =>
    rw [List.map_cons, List.filter_cons, List.filter_cons, ih]
    by_cases hp : p a
    · have hqa : q a = false := by
        cases h : q a with
        | false => rfl
        | true => exact absurd hp (hpq a h)
      simp [hp, hq, hqa]
    · simp [hp]

theorem filter_map_ite_same {α : Type} (l : List α) (p : α → Prop) [DecidablePred p]
    (f : α → α) (hp : ∀ x, p (f x) ↔ p x) :
    (l.map (fun x => if p x then f x else x)).filter (fun x => decide (p x)) =
      (l.filter (fun x => decide (p x))).map f := by
  induction l with
  | nil => rfl
  | cons a l ih =>
    rw [List.map_cons, List.filter_cons, List.filter_cons, ih]
    by_cases hpa : p a
    · simp [hpa, (hp a).mpr hpa]
    · simp [hpa]

/-- The store after `updateUserSeriesStep` when the store executes both
statements. -/
theorem updateUserSeriesStep_eq (env : Env) (now : Time) (e : queuedEmail)
    (next : Option StreamStep) (emailID : Int) (s : State)
    (h1 : env.insertStepErr e = none) (h2 : env.updateSeriesErr e = none) :
    (updateUserSeriesStep env now e next emailID s).2 =
      setNextStep e (next.map fun n => n.ID)
        (next.map fun n => now + secondsDuration n.DelaySeconds)
        (upsertUserSeriesStep e emailID now s) := by
  unfold updateUserSeriesStep
  rw [h1]
  simp only [h2]
  cases next <;> rfl

/-- The store after `updateUserSeriesStep`: untouched when the first statement
fails, after the upsert when the second fails, after both otherwise. -/
theorem updateUserSeriesStep_cases (env : Env) (now : Time) (e : queuedEmail)
    (next : Option StreamStep) (emailID : Int) (s : State) :
    (updateUserSeriesStep env now e next emailID s).2 = s ∨
    (updateUserSeriesStep env now e next emailID s).2 = upsertUserSeriesStep e emailID now s ∨
    (updateUserSeriesStep env now e next emailID s).2 =
      setNextStep e (next.map fun n => n.ID)
        (next.map fun n => now + secondsDuration n.DelaySeconds)
        (upsertUserSeriesStep e emailID now s) := by
  cases h1 : env.insertStepErr e with
  | some err =>
    left
    unfold updateUserSeriesStep
    rw [h1]
  | none =>
    cases h2 : env.updateSeriesErr e with
    | some err =>
      right; left
      unfold updateUserSeriesStep
      rw [h1]
      simp only [h2]
    | none => exact Or.inr (Or.inr (updateUserSeriesStep_eq env now e next emailID s h1 h2))

theorem upsertUserSeriesStep_frame (e : queuedEmail) (emailID : Int) (now : Time) (s : State) :
    (upsertUserSeriesStep e emailID now s).user = s.user ∧
    (upsertUserSeriesStep e emailID now s).user_series = s.user_series ∧
    (upsertUserSeriesStep e emailID now s).email = s.email ∧
    (upsertUserSeriesStep e emailID now s).email_id_seq = s.email_id_seq ∧
    (upsertUserSeriesStep e emailID now s).mailgun_calls = s.mailgun_calls := by
  unfold upsertUserSeriesStep
  split <;> exact ⟨rfl, rfl, rfl, rfl, rfl⟩

/-- No statement of `updateUserSeriesStep` writes to `"user"`, to `"email"` or to
the transport. -/
theorem updateUserSeriesStep_frame (env : Env) (now : Time) (e : queuedEmail)
    (next : Option StreamStep) (emailID : Int) (s : State) :
    (updateUserSeriesStep env now e next emailID s).2.user = s.user ∧
    (updateUserSeriesStep env now e next emailID s).2.email = s.email ∧
    (updateUserSeriesStep env now e next emailID s).2.mailgun_calls = s.mailgun_calls := by
  have hf := upsertUserSeriesStep_frame e emailID now s
  rcases updateUserSeriesStep_cases env now e next emailID s with h | h | h
  · rw [h]; exact ⟨rfl, rfl, rfl⟩
  · rw [h]; exact ⟨hf.1, hf.2.2.1, hf.2.2.2.2⟩
  · rw [h]; exact ⟨hf.1, hf.2.2.1, hf.2.2.2.2⟩

theorem enrollments_setNextStep_same (e : queuedEmail) (nextID : Option String)
    (nextTS : Option Time) (s : State) :
    enrollments e.Email e.SeriesID (setNextStep e nextID nextTS s) =
      (enrollments e.Email e.SeriesID s).map fun us =>
        { us with next_step_id := nextID, next_step_ts := nextTS } :=
  filter_map_ite_same s.user_series
    (fun us => us.email = e.Email ∧ us.series_id = e.SeriesID) _ (fun _ => Iff.rfl)

theorem enrollments_setNextStep_other (e : queuedEmail) (nextID : Option String)
    (nextTS : Option Time) (s : State) (email seriesID : String)
    (hne : ¬ (e.Email = email ∧ e.SeriesID = seriesID)) :
    enrollments email seriesID (setNextStep e nextID nextTS s) =
      enrollments email seriesID s := by
  refine filter_map_ite_other s.user_series
    (fun us => us.email = e.Email ∧ us.series_id = e.SeriesID) _ _ (fun us => rfl) ?_
  intro us hus hc
  have h : us.email = email ∧ us.series_id = seriesID := by simpa using hus
  exact hne ⟨hc.1.symm.trans h.1, hc.2.symm.trans h.2⟩

/-- When the store executes both statements, `updateUserSeriesStep` rewrites the
enrollment of its queue entry. -/
theorem enrollments_update_same (env : Env) (now : Time) (e : queuedEmail)
    (next : Option StreamStep) (emailID : Int) (s : State)
    (h1 : env.insertStepErr e = none) (h2 : env.updateSeriesErr e = none) :
    enrollments e.Email e.SeriesID (updateUserSeriesStep env now e next emailID s).2 =
      (enrollments e.Email e.SeriesID s).map (advanceRow now next) := by
  rw [updateUserSeriesStep_eq env now e next emailID s h1 h2, enrollments_setNextStep_same,
    enrollments_congr _ _ _ s (upsertUserSeriesStep_frame e emailID now s).2.1]
  rfl

/-- The statements of `updateUserSeriesStep` leave every other enrollment alone. -/
theorem enrollments_update_other (env : Env) (now : Time) (e : queuedEmail)
    (next : Option StreamStep) (emailID : Int) (s : State) (email seriesID : String)
    (hne : ¬ (e.Email = email ∧ e.SeriesID = seriesID)) :
    enrollments email seriesID (updateUserSeriesStep env now e next emailID s).2 =
      enrollments email seriesID s := by
  have hu := enrollments_congr email seriesID _ s (upsertUserSeriesStep_frame e emailID now s).2.1
  rcases updateUserSeriesStep_cases env now e next emailID s with h | h | h
  · rw [h]
  · rw [h, hu]
  · rw [h, enrollments_setNextStep_other _ _ _ _ _ _ hne, hu]

theorem stepRecords_upsert_other (e : queuedEmail) (emailID : Int) (now : Time) (s : State)
    (email seriesID : String) (hne : ¬ (e.Email = email ∧ e.SeriesID = seriesID)) :
    stepRecords email seriesID (upsertUserSeriesStep e emailID now s) =
      stepRecords email seriesID s := by
  unfold upsertUserSeriesStep
  split
  · simp only [stepRecords]
    refine filter_map_ite_other s.user_series_step
      (fun r => r.email = e.Email ∧ r.series_id = e.SeriesID ∧ r.step_id = e.StepID) _ _
      (fun r => rfl) ?_
    intro r hr hc
    have h : r.email = email ∧ r.series_id = seriesID := by simpa using hr
    exact hne ⟨hc.1.symm.trans h.1, hc.2.1.symm.trans h.2⟩
  · simp only [stepRecords, List.filter_append]
    have : List.filter (fun r : UserSeriesStepRow =>
        decide (r.email = email ∧ r.series_id = seriesID))
        [{ email := e.Email, series_id := e.SeriesID, step_id := e.StepID,
           email_id := emailID, executed := now }] = [] := by
      simp [List.filter_cons]
      exact fun h => (hne ⟨h, ·⟩)
    rw [this, List.append_nil]

/-- The upsert of `updateUserSeriesStep` on the records of its own enrollment. -/
theorem stepRecords_upsert_same (e : queuedEmail) (emailID : Int) (now : Time) (s : State) :
    stepRecords e.Email e.SeriesID (upsertUserSeriesStep e emailID now s) =
      upsertRows e emailID now (stepRecords e.Email e.SeriesID s) := by
  have hany : s.user_series_step.any
      (fun r => r.email = e.Email ∧ r.series_id = e.SeriesID ∧ r.step_id = e.StepID) =
      (stepRecords e.Email e.SeriesID s).any (fun r => r.step_id = e.StepID) := by
    rw [Bool.eq_iff_iff]
    simp only [stepRecords, List.any_eq_true, List.mem_filter, decide_eq_true_eq]
    constructor
    · rintro ⟨r, hr, h1, h2, h3⟩
      exact ⟨r, ⟨hr, h1, h2⟩, h3⟩
    · rintro ⟨r, ⟨hr, h1, h2⟩, h3⟩
      exact ⟨r, hr, h1, h2, h3⟩
  unfold upsertUserSeriesStep upsertRows
  rw [hany]
  split
  · simp only [stepRecords, List.filter_map]
    have hfil : List.filter ((fun r : UserSeriesStepRow =>
          decide (r.email = e.Email ∧ r.series_id = e.SeriesID)) ∘ fun r =>
        if r.email = e.Email ∧ r.series_id = e.SeriesID ∧ r.step_id = e.StepID then
          { r with email_id := emailID } else r) s.user_series_step =
        List.filter (fun r => decide (r.email = e.Email ∧ r.series_id = e.SeriesID))
          s.user_series_step :=
      List.filter_congr (fun r _ => by
        simp only [Function.comp]
        split <;> rfl)
    rw [hfil]
    apply List.map_congr_left
    intro r hr
    have hk : r.email = e.Email ∧ r.series_id = e.SeriesID := by
      simpa using (List.mem_filter.mp hr).2
    by_cases hs : r.step_id = e.StepID
    · simp [hk.1, hk.2, hs]
    · simp [hs]
  · show List.filter _ (s.user_series_step ++ _) = _
    rw [List.filter_append]
    simp [stepRecords, List.filter_cons]

/-- The statements of `updateUserSeriesStep` leave the records of every other
enrollment alone. -/
theorem stepRecords_update_other (env : Env) (now : Time) (e : queuedEmail)
    (next : Option StreamStep) (emailID : Int) (s : State) (email seriesID : String)
    (hne : ¬ (e.Email = email ∧ e.SeriesID = seriesID)) :
    stepRecords email seriesID (updateUserSeriesStep env now e next emailID s).2 =
      stepRecords email seriesID s := by
  have hu := stepRecords_upsert_other e emailID now s email seriesID hne
  rcases updateUserSeriesStep_cases env now e next emailID s with h | h | h
  · rw [h]
  · rw [h, hu]
  · rw [h]
    exact hu

/-- When the store executes both statements, `updateUserSeriesStep` upserts the
record of the step among the records of its enrollment. -/
theorem stepRecords_update_same (env : Env) (now : Time) (e : queuedEmail)
    (next : Option StreamStep) (emailID : Int) (s : State)
    (h1 : env.insertStepErr e = none) (h2 : env.updateSeriesErr e = none) :
    stepRecords e.Email e.SeriesID (updateUserSeriesStep env now e next emailID s).2 =
      upsertRows e emailID now (stepRecords e.Email e.SeriesID s) := by
  rw [updateUserSeriesStep_eq env now e next emailID s h1 h2]
  exact stepRecords_upsert_same e emailID now s

theorem collectResult_frame (env : Env) (now : Time) (r : result) (s : State) :
    (collectResult env now r s).user = s.user ∧
    (collectResult env now r s).email = s.email ∧
    (collectResult env now r s).mailgun_calls = s.mailgun_calls := by
  unfold collectResult
  split
  · exact ⟨rfl, rfl, rfl⟩
  · exact updateUserSeriesStep_frame _ _ _ _ _ _

/-- The receiving loop writes to neither `"user"` nor `"email"`, and hands
nothing to the transport. -/
theorem collectResults_frame (env : Env) (now : Time) :
    ∀ (rs : List result) (s : State),
      (collectResults env now rs s).user = s.user ∧
      (collectResults env now rs s).email = s.email ∧
      (collectResults env now rs s).mailgun_calls = s.mailgun_calls := by
  intro rs
  induction rs with
  | nil => intro s; exact ⟨rfl, rfl, rfl⟩
  | cons r rs ih =>
    intro s
    have h1 := ih (collectResult env now r s)
    have h2 := collectResult_frame env now r s
    exact ⟨h1.1.trans h2.1, h1.2.1.trans h2.2.1, h1.2.2.trans h2.2.2⟩

theorem collectResults_user (env : Env) (now : Time) (rs : List result) (s : State) :
    (collectResults env now rs s).user = s.user :=
  (collectResults_frame env now rs s).1

/-- The receiving loop leaves an enrollment and its step records as they are when
no result that passes the loop's test belongs to it. -/
theorem collectResults_other (env : Env) (now : Time) (email seriesID : String) :
    ∀ (rs : List result) (s : State),
      (∀ r ∈ rs, r.err = none → r.emailID ≠ 0 →
        ¬ (r.e.Email = email ∧ r.e.SeriesID = seriesID)) →
      enrollments email seriesID (collectResults env now rs s) = enrollments email seriesID s ∧
      stepRecords email seriesID (collectResults env now rs s) =
        stepRecords email seriesID s := by
  intro rs
  induction rs with
  | nil => intro s _; exact ⟨rfl, rfl⟩
  | cons r rs ih =>
    intro s h
    show enrollments email seriesID (collectResults env now rs (collectResult env now r s)) = _ ∧
      stepRecords email seriesID (collectResults env now rs (collectResult env now r s)) = _
    have htail := ih (collectResult env now r s)
      (fun r' hr' => h r' (List.mem_cons_of_mem _ hr'))
    rw [htail.1, htail.2]
    unfold collectResult
    split
    · exact ⟨rfl, rfl⟩
    · rename_i hc
      have hne : ¬ (r.e.Email = email ∧ r.e.SeriesID = seriesID) := by
        apply h r (List.mem_cons_self _ _)
        · by_contra herr
          exact hc (Or.inl herr)
        · intro hid
          exact hc (Or.inr hid)
      exact ⟨enrollments_update_other env now r.e r.next r.emailID s email seriesID hne,
        stepRecords_update_other env now r.e r.next r.emailID s email seriesID hne⟩

/-- With one result per enrollment, the receiving loop applies the update of a
result that passes its test to that result's enrollment and step records, once,
when the store executes both statements for it. -/
theorem collectResults_same (env : Env) (now : Time) (r : result) (herr : r.err = none)
    (hid : r.emailID ≠ 0) (h1 : env.insertStepErr r.e = none)
    (h2 : env.updateSeriesErr r.e = none) :
    ∀ (rs : List result) (s : State), r ∈ rs →
      (rs.map fun r' => (r'.e.Email, r'.e.SeriesID)).Nodup →
      enrollments r.e.Email r.e.SeriesID (collectResults env now rs s) =
        (enrollments r.e.Email r.e.SeriesID s).map (advanceRow now r.next) ∧
      stepRecords r.e.Email r.e.SeriesID (collectResults env now rs s) =
        upsertRows r.e r.emailID now (stepRecords r.e.Email r.e.SeriesID s) := by
  intro rs
  induction rs with
  | nil => intro s hr; cases hr
  | cons r' rs ih =>
    intro s hr hnd
    rw [List.map_cons, List.nodup_cons] at hnd
    show enrollments r.e.Email r.e.SeriesID
        (collectResults env now rs (collectResult env now r' s)) = _ ∧
      stepRecords r.e.Email r.e.SeriesID
        (collectResults env now rs (collectResult env now r' s)) = _
    rcases List.mem_cons.mp hr with heq | hmem
    · subst heq
      have htail := collectResults_other env now r.e.Email r.e.SeriesID rs
        (collectResult env now r s) (fun r'' hr'' _ _ hk => hnd.1 (List.mem_map.mpr
          ⟨r'', hr'', by rw [hk.1, hk.2]⟩))
      rw [htail.1, htail.2]
      have hc : ¬ (r.err ≠ none ∨ r.emailID = 0) := by
        rintro (h | h)
        · exact h herr
        · exact hid h
      simp only [collectResult, hc, if_false]
      exact ⟨enrollments_update_same env now r.e r.next r.emailID s h1 h2,
        stepRecords_update_same env now r.e r.next r.emailID s h1 h2⟩
    · have hih := ih (collectResult env now r' s) hmem hnd.2
      rw [hih.1, hih.2]
      have hne : ¬ (r'.e.Email = r.e.Email ∧ r'.e.SeriesID = r.e.SeriesID) := fun hk =>
        hnd.1 (List.mem_map.mpr ⟨r, hmem, by rw [hk.1, hk.2]⟩)
      unfold collectResult
      split
      · exact ⟨rfl, rfl⟩
      · rw [enrollments_update_other env now r'.e r'.next r'.emailID s _ _ hne,
          stepRecords_update_other env now r'.e r'.next r'.emailID s _ _ hne]
        exact ⟨rfl, rfl⟩

/-! ## The due query -/

/-- A queue entry is due exactly when it is read from an enrollment row with a
next step, whose due time has come, joined with an opted-in row of its recipient. -/
theorem mem_dueRows (now : Time) (s : State) (e : queuedEmail) :
    e ∈ dueRows now s ↔
      ∃ us ∈ s.user_series, ∃ u ∈ s.user, u.email = us.email ∧ u.optin = true ∧
        ∃ ts, us.next_step_ts = some ts ∧ ts ≤ now ∧ us.next_step_id = some e.StepID ∧
          e.Email = us.email ∧ e.SeriesID = us.series_id := by
  simp only [dueRows, List.mem_flatMap, List.mem_filterMap, List.mem_filter]
  constructor
  · rintro ⟨us, hus, u, ⟨hu, hue⟩, hm⟩
    refine ⟨us, hus, u, hu, by simpa using hue, ?_⟩
    split at hm
    · rename_i ts stepID hts hid
      split at hm
      · rename_i hc
        injection hm with hm
        subst hm
        exact ⟨hc.2, ts, hts, hc.1, hid, rfl, rfl⟩
      · cases hm
    · cases hm
  · rintro ⟨us, hus, u, hu, hue, hopt, ts, hts, hle, hid, hE, hS⟩
    refine ⟨us, hus, u, ⟨hu, by simpa using hue⟩, ?_⟩
    rw [hts, hid]
    simp only [hle, hopt, and_self, if_true, Option.some.injEq]
    cases e
    simp_all

theorem flatMap_sublist_map {α β : Type} (l : List α) (g : α → List β) (f : α → β)
    (h : ∀ x ∈ l, (g x).Sublist [f x]) : (l.flatMap g).Sublist (l.map f) := by
  induction l with
  | nil => simp
  | cons a l ih =>
    rw [List.flatMap_cons, List.map_cons]
    exact List.Sublist.append (h a (List.mem_cons_self _ _))
      (ih fun x hx => h x (List.mem_cons_of_mem _ hx))

/-- Under the store's unique keys, the due rows hold one entry per enrollment. -/
theorem dueRows_key_nodup (now : Time) (s : State) (hwf : s.WF) :
    ((dueRows now s).map fun e => (e.Email, e.SeriesID)).Nodup := by
  refine List.Nodup.sublist ?_ hwf.series_key
  unfold dueRows
  rw [List.map_flatMap]
  apply flatMap_sublist_map
  intro us _
  have hle := filter_key_length_le_one s.user (fun u => u.email) hwf.user_key us.email
  generalize s.user.filter (fun u => decide (u.email = us.email)) = l at hle ⊢
  match l, hle with
  | [], _ => simp
  | [u], _ =>
    simp only [List.filterMap_cons, List.filterMap_nil]
    split
    · simp
    · rename_i e he
      split at he
      · split at he
        · injection he with he
          subst he
          simp
        · cases he
      · cases he
  | _ :: _ :: _, hle => simp at hle

theorem queryDueEmails_sublist (now : Time) (s : State) :
    (queryDueEmails now s).Sublist (dueRows now s) :=
  List.take_sublist 10 _

theorem queryDueEmails_key_nodup (now : Time) (s : State) (hwf : s.WF) :
    ((queryDueEmails now s).map fun e => (e.Email, e.SeriesID)).Nodup :=
  List.Nodup.sublist ((queryDueEmails_sublist now s).map _) (dueRows_key_nodup now s hwf)

theorem queryDueEmails_subset (now : Time) (s : State) (e : queuedEmail)
    (he : e ∈ queryDueEmails now s) : e ∈ dueRows now s :=
  (queryDueEmails_sublist now s).subset he

/-! ## TriggerSeries -/

theorem mem_enrollments (email seriesID : String) (s : State) (us : UserSeriesRow) :
    us ∈ enrollments email seriesID s ↔
      us ∈ s.user_series ∧ us.email = email ∧ us.series_id = seriesID := by
  simp [enrollments, List.mem_filter]

theorem stepRecords_congr (email seriesID : String) (s t : State)
    (h : s.user_series_step = t.user_series_step) :
    stepRecords email seriesID s = stepRecords email seriesID t := by
  simp [stepRecords, h]

/-- The value of `TriggerSeries` when the queue is not empty and its campaigns resolve. -/
theorem TriggerSeries_eq (env : Env) (now : Time) (s : State)
    (streams : List (String × Stream))
    (hres : resolveStreams env (queryDueEmails now s) [] = .ok streams)
    (hq : queryDueEmails now s ≠ []) :
    TriggerSeries env now s =
      (none, collectResults env now (sendTasks env streams now (queryDueEmails now s) s).1
        (sendTasks env streams now (queryDueEmails now s) s).2) := by
  simp only [TriggerSeries, hq, if_false, hres]

/-- The store after `TriggerSeries` is the given one, or the one the receiving
loop leaves after the goroutines of the queue, whose campaigns resolved. -/
theorem TriggerSeries_cases (env : Env) (now : Time) (s : State) :
    (TriggerSeries env now s).2 = s ∨
    ∃ streams, resolveStreams env (queryDueEmails now s) [] = .ok streams ∧
      (TriggerSeries env now s).2 =
        collectResults env now (sendTasks env streams now (queryDueEmails now s) s).1
          (sendTasks env streams now (queryDueEmails now s) s).2 := by
  unfold TriggerSeries
  simp only
  split
  · exact Or.inl rfl
  · split
    · exact Or.inl rfl
    · rename_i streams hres
      exact Or.inr ⟨streams, hres, rfl⟩

theorem sendTasks_mem_e (env : Env) (streams : List (String × Stream)) (now : Time)
    (queue : List queuedEmail) (s : State) (r : result)
    (hr : r ∈ (sendTasks env streams now queue s).1) : r.e ∈ queue := by
  rw [← sendTasks_e env streams now queue s]
  exact List.mem_map.mpr ⟨r, hr, rfl⟩

theorem due_has_user (now : Time) (s : State) (e : queuedEmail) (he : e ∈ dueRows now s) :
    ∃ u ∈ s.user, u.email = e.Email := by
  obtain ⟨us, _, u, hu, hue, _, _, _, _, _, hE, _⟩ := (mem_dueRows now s e).mp he
  exact ⟨u, hu, hue.trans hE.symm⟩

/-- No `TriggerSeries` writes to `"user"`: every recipient of the queue has a
row, so the `ensureUserCreated` of each send finds it. -/
theorem TriggerSeries_user (env : Env) (now : Time) (s : State) :
    (TriggerSeries env now s).2.user = s.user := by
  rcases TriggerSeries_cases env now s with h | ⟨streams, _, h⟩
  · rw [h]
  · rw [h, collectResults_user]
    exact (sendTasks_frame env streams now (queryDueEmails now s) s).2.2.2
      (fun e he => due_has_user now s e (queryDueEmails_subset now s e he))

/-- The results of one `TriggerSeries` belong to pairwise different enrollments. -/
theorem results_key_nodup (env : Env) (streams : List (String × Stream)) (now : Time)
    (s : State) (hwf : s.WF) :
    ((sendTasks env streams now (queryDueEmails now s) s).1.map
      fun r => (r.e.Email, r.e.SeriesID)).Nodup := by
  have h := queryDueEmails_key_nodup now s hwf
  rw [← sendTasks_e env streams now (queryDueEmails now s) s, List.map_map] at h
  exact h

/-- An enrollment none of whose results passes the test of the receiving loop is
left alone by `TriggerSeries`, with its step records. -/
theorem TriggerSeries_other (env : Env) (now : Time) (s : State) (email seriesID : String)
    (h : ∀ streams, resolveStreams env (queryDueEmails now s) [] = .ok streams →
      ∀ r ∈ (sendTasks env streams now (queryDueEmails now s) s).1,
        r.err = none → r.emailID ≠ 0 → ¬ (r.e.Email = email ∧ r.e.SeriesID = seriesID)) :
    enrollments email seriesID (TriggerSeries env now s).2 = enrollments email seriesID s ∧
    stepRecords email seriesID (TriggerSeries env now s).2 = stepRecords email seriesID s := by
  rcases TriggerSeries_cases env now s with h' | ⟨streams, hres, h'⟩
  · rw [h']; exact ⟨rfl, rfl⟩
  · rw [h']
    have hc := collectResults_other env now email seriesID _
      (sendTasks env streams now (queryDueEmails now s) s).2 (h streams hres)
    have hf := sendTasks_frame env streams now (queryDueEmails now s) s
    rw [hc.1, hc.2]
    exact ⟨enrollments_congr _ _ _ _ hf.1, stepRecords_congr _ _ _ _ hf.2.1⟩

/-- What the goroutine of a queue entry reports: an error exactly when the series
is missing from the map, `findStep` does not find the step, or `Send` returns an
error; otherwise the `next` of `findStep` and the id of the response of `Send`. -/
theorem sendTask_result (env : Env) (streams : List (String × Stream)) (now : Time)
    (e : queuedEmail) (s : State) :
    ((sendTask env streams now e s).1.err ≠ none ∧
      (streams.lookup e.SeriesID = none ∨
       (∃ ser, streams.lookup e.SeriesID = some ser ∧ (findStep ser e.StepID).2.2 = false) ∨
       (∃ ser curr next err, streams.lookup e.SeriesID = some ser ∧
          findStep ser e.StepID = (some curr, next, true) ∧
          (Send env now { Template := curr.Template, Email := e.Email } s).1 = .error err))) ∨
    ((sendTask env streams now e s).1.err = none ∧
      ∃ ser curr resp, streams.lookup e.SeriesID = some ser ∧
        findStep ser e.StepID = (some curr, (sendTask env streams now e s).1.next, true) ∧
        (Send env now { Template := curr.Template, Email := e.Email } s).1 = .ok resp ∧
        (sendTask env streams now e s).1.emailID = resp.ID) := by
  unfold sendTask
  split
  · rename_i h
    exact Or.inl ⟨by simp, Or.inl h⟩
  · rename_i ser hser
    rcases findStep_cases ser e.StepID with ⟨_, hf⟩ | ⟨i, curr, _, _, _, hf⟩
    · rw [hf]
      exact Or.inl ⟨by simp, Or.inr (Or.inl ⟨ser, hser, by rw [hf]⟩)⟩
    · rw [hf]
      simp only
      split
      · rename_i err s' heq
        exact Or.inl ⟨by simp, Or.inr (Or.inr ⟨ser, curr, _, err, hser, hf, by rw [heq]⟩)⟩
      · rename_i resp s' heq
        exact Or.inr ⟨rfl, ser, curr, resp, hser, hf, by rw [heq], rfl⟩

/-- C5. In a store that satisfies its constraints and a `TriggerSeries` whose
campaigns resolve, take the result of a queue
entry that carries an error (the step id was not found in the resolved campaign,
or `Send` returned an error: `sendTask_result`).  The enrollment row of that
entry, with its next-step id and next-due time, is as before the call, no step
execution record of the enrollment is written or changed, and the entry is still
due, for the same step, at every later time. -/
theorem TriggerSeries_failed_unchanged (env : Env) (now : Time) (s : State) (hwf : s.WF)
    (streams : List (String × Stream))
    (hres : resolveStreams env (queryDueEmails now s) [] = .ok streams)
    (r : result) (hr : r ∈ (sendTasks env streams now (queryDueEmails now s) s).1)
    (herr : r.err ≠ none) :
    enrollments r.e.Email r.e.SeriesID (TriggerSeries env now s).2 =
      enrollments r.e.Email r.e.SeriesID s ∧
    stepRecords r.e.Email r.e.SeriesID (TriggerSeries env now s).2 =
      stepRecords r.e.Email r.e.SeriesID s ∧
    ∀ now', now ≤ now' → r.e ∈ dueRows now' (TriggerSeries env now s).2 := by
  have hmem := sendTasks_mem_e env streams now _ s r hr
  have hq : queryDueEmails now s ≠ [] := List.ne_nil_of_mem hmem
  have hnd := results_key_nodup env streams now s hwf
  have hother : ∀ r' ∈ (sendTasks env streams now (queryDueEmails now s) s).1,
      r'.err = none → r'.emailID ≠ 0 →
        ¬ (r'.e.Email = r.e.Email ∧ r'.e.SeriesID = r.e.SeriesID) := by
    intro r' hr' herr' _ hk
    have heq : r' = r := List.inj_on_of_nodup_map hnd hr' hr (by rw [hk.1, hk.2])
    rw [heq] at herr'
    exact herr herr'
  have hc := collectResults_other env now r.e.Email r.e.SeriesID _
    (sendTasks env streams now (queryDueEmails now s) s).2 hother
  have hf := sendTasks_frame env streams now (queryDueEmails now s) s
  have henr : enrollments r.e.Email r.e.SeriesID (TriggerSeries env now s).2 =
      enrollments r.e.Email r.e.SeriesID s := by
    rw [TriggerSeries_eq env now s streams hres hq, hc.1]
    exact enrollments_congr _ _ _ _ hf.1
  refine ⟨henr, ?_, fun now' hnow => ?_⟩
  · rw [TriggerSeries_eq env now s streams hres hq, hc.2]
    exact stepRecords_congr _ _ _ _ hf.2.1
  · obtain ⟨us, hus, u, hu, hue, hopt, ts, hts, hle, hid, hE, hS⟩ :=
      (mem_dueRows now s r.e).mp (queryDueEmails_subset now s r.e hmem)
    have hus' : us ∈ (TriggerSeries env now s).2.user_series := by
      have : us ∈ enrollments r.e.Email r.e.SeriesID (TriggerSeries env now s).2 := by
        rw [henr]
        exact (mem_enrollments _ _ _ _).mpr ⟨hus, hE.symm, hS.symm⟩
      exact ((mem_enrollments _ _ _ _).mp this).1
    refine (mem_dueRows now' _ r.e).mpr ⟨us, hus', u, ?_, hue, hopt, ts, hts,
      le_trans hle hnow, hid, hE, hS⟩
    rw [TriggerSeries_user]
    exact hu

/-- Every entry of the map built by `resolveStreams` is what `getSeries` returned
for its key. -/
theorem resolveStreams_lookup (env : Env) :
    ∀ (queue : List queuedEmail) (acc streams : List (String × Stream)),
      resolveStreams env queue acc = .ok streams →
      (∀ id ser, acc.lookup id = some ser → getSeries env id = .ok ser) →
      ∀ id ser, streams.lookup id = some ser → getSeries env id = .ok ser := by
  intro queue
  induction queue with
  | nil =>
    intro acc streams h hacc
    simp only [resolveStreams] at h
    injection h with h
    rw [← h]
    exact hacc
  | cons e queue ih =>
    intro acc streams h hacc
    simp only [resolveStreams] at h
    split at h
    · exact ih acc streams h hacc
    · split at h
      · cases h
      · rename_i ser hser
        refine ih _ streams h ?_
        intro id ser' hl
        rw [List.lookup_cons] at hl
        split at hl
        · rename_i hid
          have hid' : id = e.SeriesID := by simpa using hid
          injection hl with hl
          rw [hid', ← hl, hser]
        · exact hacc id ser' hl

theorem sendTasks_mem (env : Env) (streams : List (String × Stream)) (now : Time) :
    ∀ (queue : List queuedEmail) (s : State) (r : result),
      r ∈ (sendTasks env streams now queue s).1 →
      ∃ e s', r = (sendTask env streams now e s').1 := by
  intro queue
  induction queue with
  | nil => intro s r hr; cases hr
  | cons e queue ih =>
    intro s r hr
    rw [sendTasks_cons] at hr
    rcases List.mem_cons.mp hr with h | h
    · exact ⟨e, s, h⟩
    · exact ih _ r h

/-! ## Completed enrollments stay completed -/

theorem not_due_of_completed (email seriesID : String) (s : State)
    (hc : Completed email seriesID s) (now : Time) (e : queuedEmail)
    (he : e ∈ dueRows now s) : ¬ (e.Email = email ∧ e.SeriesID = seriesID) := by
  intro hk
  obtain ⟨us, hus, _, _, _, _, _, _, _, hid, hE, hS⟩ := (mem_dueRows now s e).mp he
  have hmem : us ∈ enrollments email seriesID s :=
    (mem_enrollments _ _ _ _).mpr ⟨hus, hE.symm.trans hk.1, hS.symm.trans hk.2⟩
  rw [hc.2 us hmem] at hid
  cases hid

theorem Completed_congr (email seriesID : String) (s t : State)
    (h : enrollments email seriesID t = enrollments email seriesID s)
    (hc : Completed email seriesID s) : Completed email seriesID t := by
  unfold Completed
  rw [h]
  exact hc

theorem Unsubscribe_user_series (env : Env) (now : Time) (params : UnsubscribeParams)
    (s : State) : (Unsubscribe env now params s).2.user_series = s.user_series := by
  unfold Unsubscribe
  split <;> rfl

theorem enrollments_insertUserSeries_other (email seriesID stepID : String) (ts now : Time)
    (s : State) (email' seriesID' : String) (hne : ¬ (email = email' ∧ seriesID = seriesID')) :
    enrollments email' seriesID' (insertUserSeries email seriesID stepID ts now s) =
      enrollments email' seriesID' s := by
  unfold insertUserSeries
  split
  · rfl
  · show List.filter _ (s.user_series ++ _) = List.filter _ s.user_series
    rw [List.filter_append]
    have : List.filter (fun us : UserSeriesRow =>
        decide (us.email = email' ∧ us.series_id = seriesID'))
        [{ email := email, series_id := seriesID, next_step_id := some stepID,
           next_step_ts := some ts, started := now }] = [] := by
      simp [List.filter_cons]
      exact fun h => (hne ⟨h, ·⟩)
    rw [this, List.append_nil]

theorem BeginSeries_other (env : Env) (now : Time) (params : TriggerSeriesParams) (s : State)
    (email seriesID : String)
    (hne : ¬ (params.Email = email ∧ params.SeriesName = seriesID)) :
    enrollments email seriesID (BeginSeries env now params s).2 =
      enrollments email seriesID s := by
  have hens : enrollments email seriesID (ensureUserCreated params.Email now s) =
      enrollments email seriesID s :=
    enrollments_congr _ _ _ _ (ensureUserCreated_user_series _ _ _)
  unfold BeginSeries
  simp only
  split
  · exact hens
  · split
    · exact hens
    · simp only
      rw [enrollments_insertUserSeries_other _ _ _ _ _ _ _ _ hne]
      exact hens

theorem Completed_exec (email seriesID : String) (c : Call) (s : State)
    (hc : Completed email seriesID s) : Completed email seriesID (c.exec s) := by
  refine Completed_congr email seriesID s _ ?_ hc
  cases c with
  | send env now params =>
    exact enrollments_congr _ _ _ _ (Send_frame env now params s).2.1
  | unsubscribe env now params =>
    exact enrollments_congr _ _ _ _ (Unsubscribe_user_series env now params s)
  | beginSeries env now params =>
    by_cases hk : params.Email = email ∧ params.SeriesName = seriesID
    · refine enrollments_congr _ _ _ _ (BeginSeries_of_enrolled env now params s ?_)
      rw [hk.1, hk.2]
      exact hc.1
    · exact BeginSeries_other env now params s email seriesID hk
  | triggerSeries env now =>
    refine (TriggerSeries_other env now s email seriesID ?_).1
    intro streams _ r hr _ _
    exact not_due_of_completed email seriesID s hc now r.e
      (queryDueEmails_subset now s r.e (sendTasks_mem_e env streams now _ s r hr))

theorem Completed_runCalls (email seriesID : String) :
    ∀ (calls : List Call) (s : State), Completed email seriesID s →
      Completed email seriesID (runCalls calls s) := by
  intro calls
  induction calls with
  | nil => intro s hc; exact hc
  | cons c calls ih => intro s hc; exact ih (c.exec s) (Completed_exec email seriesID c s hc)

/-- The enrollment row a due queue entry was read from is the only row of its
pair, and its next-step id is the entry's step id. -/
theorem due_enrollment (now : Time) (s : State) (hwf : s.WF) (e : queuedEmail)
    (he : e ∈ dueRows now s) :
    ∃ us, enrollments e.Email e.SeriesID s = [us] ∧ us.next_step_id = some e.StepID := by
  obtain ⟨us, hus, _, _, _, _, _, _, _, hid, hE, hS⟩ := (mem_dueRows now s e).mp he
  have hmem : us ∈ enrollments e.Email e.SeriesID s :=
    (mem_enrollments _ _ _ _).mpr ⟨hus, hE.symm, hS.symm⟩
  have hle := enrollments_length_le_one e.Email e.SeriesID s hwf
  match hm : enrollments e.Email e.SeriesID s, hle with
  | [], _ => rw [hm] at hmem; cases hmem
  | [us'], _ =>
    rw [hm] at hmem
    exact ⟨us', rfl, by rw [← List.mem_singleton.mp hmem]; exact hid⟩
  | _ :: _ :: _, hle => simp at hle

/-- The effect of `TriggerSeries` on the enrollment and the step records of a
result that passes the test of the receiving loop, when the store executes both
statements of `updateUserSeriesStep` for it. -/
theorem result_advances (env : Env) (now : Time) (s : State) (hwf : s.WF)
    (streams : List (String × Stream))
    (hres : resolveStreams env (queryDueEmails now s) [] = .ok streams)
    (r : result) (hr : r ∈ (sendTasks env streams now (queryDueEmails now s) s).1)
    (herr : r.err = none) (hid : r.emailID ≠ 0)
    (h1 : env.insertStepErr r.e = none) (h2 : env.updateSeriesErr r.e = none) :
    ∃ ser curr i us,
      getSeries env r.e.SeriesID = .ok ser ∧
      streams.lookup r.e.SeriesID = some ser ∧
      ser.StreamSteps[i]? = some curr ∧ curr.ID = r.e.StepID ∧
      (∀ j t, j < i → ser.StreamSteps[j]? = some t → t.ID ≠ r.e.StepID) ∧
      r.next = ser.StreamSteps[i + 1]? ∧
      enrollments r.e.Email r.e.SeriesID s = [us] ∧ us.next_step_id = some r.e.StepID ∧
      enrollments r.e.Email r.e.SeriesID (TriggerSeries env now s).2 =
        [advanceRow now r.next us] ∧
      stepRecords r.e.Email r.e.SeriesID (TriggerSeries env now s).2 =
        upsertRows r.e r.emailID now (stepRecords r.e.Email r.e.SeriesID s) := by
  have hmem := sendTasks_mem_e env streams now _ s r hr
  have hq : queryDueEmails now s ≠ [] := List.ne_nil_of_mem hmem
  obtain ⟨us, hus, husid⟩ := due_enrollment now s hwf r.e (queryDueEmails_subset now s r.e hmem)
  -- the result comes from a goroutine that found the step and whose send returned
  obtain ⟨e, s', hrs⟩ := sendTasks_mem env streams now _ s r hr
  have hre : r.e = e := by rw [hrs, sendTask_e]
  obtain ⟨ser, curr, hlook, hfind⟩ : ∃ ser curr, streams.lookup r.e.SeriesID = some ser ∧
      findStep ser r.e.StepID = (some curr, r.next, true) := by
    rcases sendTask_result env streams now e s' with ⟨hne, _⟩ | ⟨_, ser, curr, _, hl, hf, _, _⟩
    · rw [← hrs] at hne
      exact absurd herr hne
    · rw [← hrs, ← hre] at hf
      rw [← hre] at hl
      exact ⟨ser, curr, hl, hf⟩
  have hget : getSeries env r.e.SeriesID = .ok ser :=
    resolveStreams_lookup env _ [] streams hres (fun _ _ h => by simp at h) _ ser hlook
  obtain ⟨i, hi, hcid, hfirst, hnext⟩ : ∃ i, ser.StreamSteps[i]? = some curr ∧
      curr.ID = r.e.StepID ∧
      (∀ j t, j < i → ser.StreamSteps[j]? = some t → t.ID ≠ r.e.StepID) ∧
      r.next = ser.StreamSteps[i + 1]? := by
    rcases findStep_cases ser r.e.StepID with ⟨_, hf⟩ | ⟨i, c, hi, hcid, hfirst, hf⟩
    · rw [hf] at hfind
      simp at hfind
    · rw [hf] at hfind
      simp only [Prod.mk.injEq, Option.some.injEq, and_true] at hfind
      rw [← hfind.1, ← hfind.2]
      exact ⟨i, hi, hcid, hfirst, rfl⟩
  -- the receiving loop updates the enrollment, once
  have hcol := collectResults_same env now r herr hid h1 h2 _
    (sendTasks env streams now (queryDueEmails now s) s).2 hr
    (results_key_nodup env streams now s hwf)
  have henr : enrollments r.e.Email r.e.SeriesID (TriggerSeries env now s).2 =
      [advanceRow now r.next us] := by
    rw [TriggerSeries_eq env now s streams hres hq, hcol.1,
      enrollments_congr _ _ _ s (sendTasks_frame env streams now _ s).1, hus]
    rfl
  have hrec : stepRecords r.e.Email r.e.SeriesID (TriggerSeries env now s).2 =
      upsertRows r.e r.emailID now (stepRecords r.e.Email r.e.SeriesID s) := by
    rw [TriggerSeries_eq env now s streams hres hq, hcol.2,
      stepRecords_congr _ _ _ s (sendTasks_frame env streams now _ s).2.1]
  exact ⟨ser, curr, i, us, hget, hlook, hi, hcid, hfirst, hnext, hus, husid, henr, hrec⟩

/-- The duration of a whole number of seconds that `time.Duration` can hold is
that number of seconds. -/
theorem secondsDuration_of_range (n : Int) (hlo : -9223372036 ≤ n) (hhi : n ≤ 9223372036) :
    secondsDuration n = n * 1000000000 := by
  unfold secondsDuration wrapInt64
  omega

/-- C6 (amended). In a store that satisfies its constraints and a `TriggerSeries`
whose campaigns resolve, take the result of a queue entry without error and with
a non-zero email id (`Send` returned that id: `sendTask_result`), for which the
store executes both statements of `updateUserSeriesStep`.  The entry's step is
the first step `curr` with its id in the resolved campaign, at some index `i`,
and the result's `next` is the step at index `i + 1`, nil when `curr` is the
last.  The enrollment row of the entry has afterwards the id of `next` as
next-step id and, as next-due time, `now` plus
`time.Duration(next.DelaySeconds) * time.Second`, which is `now` plus the delay
of `next` when that delay is within the range of `time.Duration`; both are null
when there is no `next`; the other columns are as before.  When there is no
`next`, the enrollment is completed, and after any further sequence of calls
that run one after the other, at any time, the due query has no row for it. -/
theorem TriggerSeries_advances (env : Env) (now : Time) (s : State) (hwf : s.WF)
    (streams : List (String × Stream))
    (hres : resolveStreams env (queryDueEmails now s) [] = .ok streams)
    (r : result) (hr : r ∈ (sendTasks env streams now (queryDueEmails now s) s).1)
    (herr : r.err = none) (hid : r.emailID ≠ 0)
    (hstore : env.insertStepErr r.e = none ∧ env.updateSeriesErr r.e = none) :
    ∃ ser curr i us,
      getSeries env r.e.SeriesID = .ok ser ∧
      ser.StreamSteps[i]? = some curr ∧ curr.ID = r.e.StepID ∧
      (∀ j t, j < i → ser.StreamSteps[j]? = some t → t.ID ≠ r.e.StepID) ∧
      r.next = ser.StreamSteps[i + 1]? ∧
      enrollments r.e.Email r.e.SeriesID s = [us] ∧ us.next_step_id = some r.e.StepID ∧
      enrollments r.e.Email r.e.SeriesID (TriggerSeries env now s).2 =
        [{ us with next_step_id := r.next.map fun n => n.ID,
                   next_step_ts := r.next.map fun n =>
                     now + secondsDuration n.DelaySeconds }] ∧
      (∀ n, r.next = some n → -9223372036 ≤ n.DelaySeconds → n.DelaySeconds ≤ 9223372036 →
        enrollments r.e.Email r.e.SeriesID (TriggerSeries env now s).2 =
          [{ us with next_step_id := some n.ID,
                     next_step_ts := some (now + n.DelaySeconds * 1000000000) }]) ∧
      (r.next = none →
        Completed r.e.Email r.e.SeriesID (TriggerSeries env now s).2 ∧
        ∀ (calls : List Call) (now' : Time),
          ∀ e ∈ dueRows now' (runCalls calls (TriggerSeries env now s).2),
            ¬ (e.Email = r.e.Email ∧ e.SeriesID = r.e.SeriesID)) := by
  obtain ⟨ser, curr, i, us, hget, _, hi, hcid, hfirst, hnext, hus, husid, henr, _⟩ :=
    result_advances env now s hwf streams hres r hr herr hid hstore.1 hstore.2
  refine ⟨ser, curr, i, us, hget, hi, hcid, hfirst, hnext, hus, husid, henr, ?_,
    fun hlast => ?_⟩
  · intro n hn hlo hhi
    rw [henr, hn]
    simp only [advanceRow, Option.map_some', secondsDuration_of_range n.DelaySeconds hlo hhi]
  · have hcomp : Completed r.e.Email r.e.SeriesID (TriggerSeries env now s).2 := by
      refine ⟨by rw [henr]; simp, ?_⟩
      intro us' hus'
      rw [henr, List.mem_singleton] at hus'
      rw [hus', hlast]
      rfl
    exact ⟨hcomp, fun calls now' e he =>
      not_due_of_completed _ _ _ (Completed_runCalls _ _ calls _ hcomp) now' e he⟩

/-! ## The store's constraints hold after every call -/

theorem State.init_WF : State.init.WF :=
  { user_key := List.nodup_nil, series_key := List.nodup_nil, step_key := List.nodup_nil,
    email_key := List.nodup_nil, email_seq := fun _ h => (by cases h), seq_pos := le_refl _ }

/-- The constraints speak of the key columns and of the id sequence only. -/
theorem WF_congr (s t : State)
    (hu : (t.user.map fun u => u.email) = s.user.map fun u => u.email)
    (hs : (t.user_series.map fun us => (us.email, us.series_id)) =
      s.user_series.map fun us => (us.email, us.series_id))
    (hst : (t.user_series_step.map fun r => (r.email, r.series_id, r.step_id)) =
      s.user_series_step.map fun r => (r.email, r.series_id, r.step_id))
    (he : (t.email.map fun e => e.id) = s.email.map fun e => e.id)
    (hq : t.email_id_seq = s.email_id_seq) (hwf : s.WF) : t.WF := by
  refine { user_key := hu ▸ hwf.user_key, series_key := hs ▸ hwf.series_key,
           step_key := hst ▸ hwf.step_key, email_key := he ▸ hwf.email_key,
           email_seq := ?_, seq_pos := hq ▸ hwf.seq_pos }
  intro e hmem
  have hid : e.id ∈ s.email.map fun e => e.id := by
    rw [← he]
    exact List.mem_map.mpr ⟨e, hmem, rfl⟩
  obtain ⟨e', he', hid'⟩ := List.mem_map.mp hid
  rw [hq, ← hid']
  exact hwf.email_seq e' he'

theorem map_key_map_ite {α β : Type} (l : List α) (p : α → Prop) [DecidablePred p]
    (f : α → α) (key : α → β) (h : ∀ x, key (f x) = key x) :
    (l.map fun x => if p x then f x else x).map key = l.map key := by
  rw [List.map_map]
  apply List.map_congr_left
  intro x _
  simp only [Function.comp]
  split
  · exact h x
  · rfl

theorem nodup_map_append_singleton {α β : Type} (l : List α) (a : α) (f : α → β)
    (h : (l.map f).Nodup) (hn : ∀ x ∈ l, f x ≠ f a) : ((l ++ [a]).map f).Nodup := by
  rw [List.map_append, List.map_singleton]
  refine List.Nodup.append h (List.nodup_singleton _) ?_
  rw [List.disjoint_singleton]
  intro hmem
  obtain ⟨x, hx, hfx⟩ := List.mem_map.mp hmem
  exact hn x hx hfx

theorem mem_append_singleton {α : Type} (l : List α) (a x : α) (h : x ∈ l ++ [a]) :
    x ∈ l ∨ x = a := by
  rcases List.mem_append.mp h with h | h
  · exact Or.inl h
  · exact Or.inr (List.mem_singleton.mp h)

theorem ensureUserCreated_WF (email : String) (now : Time) (s : State) (hwf : s.WF) :
    (ensureUserCreated email now s).WF := by
  by_cases h : ∃ u ∈ s.user, u.email = email
  · rw [ensureUserCreated_of_mem email now s h]
    exact hwf
  · rw [ensureUserCreated_of_not_mem email now s h]
    refine { hwf with user_key := ?_ }
    exact nodup_map_append_singleton s.user _ _ hwf.user_key (fun u hu hue => h ⟨u, hu, hue⟩)

theorem insertEmail_WF (email templateID : String) (now : Time) (s : State) (hwf : s.WF) :
    (insertEmail email templateID now s).2.WF := by
  refine { user_key := hwf.user_key, series_key := hwf.series_key, step_key := hwf.step_key,
           email_key := ?_, email_seq := ?_, seq_pos := ?_ }
  · exact nodup_map_append_singleton s.email _ _ hwf.email_key
      (fun e he => ne_of_lt (hwf.email_seq e he).2)
  · intro e he
    show 1 ≤ e.id ∧ e.id < s.email_id_seq + 1
    have hpos := hwf.seq_pos
    rcases mem_append_singleton s.email _ e he with h | h
    · have := hwf.email_seq e h
      exact ⟨this.1, by omega⟩
    · rw [h]
      show 1 ≤ s.email_id_seq ∧ s.email_id_seq < s.email_id_seq + 1
      omega
  · show 1 ≤ s.email_id_seq + 1
    have := hwf.seq_pos
    omega

theorem markEmailSent_WF (id : Int) (mailgunID : String) (now : Time) (s : State)
    (hwf : s.WF) : (markEmailSent id mailgunID now s).WF :=
  WF_congr s _ rfl rfl rfl
    (map_key_map_ite s.email (fun e => e.id = id) _ (fun e => e.id) (fun _ => rfl)) rfl hwf

theorem mailgun_calls_WF (s : State) (calls : List Message) (hwf : s.WF) :
    ({ s with mailgun_calls := calls } : State).WF :=
  WF_congr s _ rfl rfl rfl rfl rfl hwf

theorem Send_WF (env : Env) (now : Time) (params : SendParams) (s : State) (hwf : s.WF) :
    (Send env now params s).2.WF := by
  have h1 := ensureUserCreated_WF params.Email now s hwf
  have h2 := insertEmail_WF params.Email params.Template.ID now _ h1
  unfold Send
  simp only
  split
  · exact h1
  · split
    · exact h2
    · split
      · exact mailgun_calls_WF _ _ h2
      · exact markEmailSent_WF _ _ _ _ (mailgun_calls_WF _ _ h2)

theorem optOut_WF (email : String) (now : Time) (s : State) (hwf : s.WF) :
    (optOut email now s).WF :=
  WF_congr s _
    (map_key_map_ite s.user (fun u => u.email = email ∧ u.optin = true) _ (fun u => u.email)
      (fun _ => rfl)) rfl rfl rfl rfl hwf

theorem Unsubscribe_WF (env : Env) (now : Time) (params : UnsubscribeParams) (s : State)
    (hwf : s.WF) : (Unsubscribe env now params s).2.WF := by
  unfold Unsubscribe
  split
  · exact hwf
  · rename_i email emailID _
    exact WF_congr (optOut email now s) _ rfl rfl rfl rfl rfl (optOut_WF email now s hwf)

theorem insertUserSeries_WF (email seriesID stepID : String) (ts now : Time) (s : State)
    (hwf : s.WF) : (insertUserSeries email seriesID stepID ts now s).WF := by
  unfold insertUserSeries
  split
  · exact hwf
  · rename_i hany
    refine { hwf with series_key := ?_ }
    refine nodup_map_append_singleton s.user_series _ _ hwf.series_key (fun us hus hk => ?_)
    apply hany
    rw [List.any_eq_true]
    refine ⟨us, hus, ?_⟩
    simp only [Prod.mk.injEq] at hk
    simpa using hk

theorem BeginSeries_WF (env : Env) (now : Time) (params : TriggerSeriesParams) (s : State)
    (hwf : s.WF) : (BeginSeries env now params s).2.WF := by
  have h1 := ensureUserCreated_WF params.Email now s hwf
  unfold BeginSeries
  simp only
  split
  · exact h1
  · split
    · exact h1
    · exact insertUserSeries_WF _ _ _ _ _ _ h1

theorem upsertUserSeriesStep_WF (e : queuedEmail) (emailID : Int) (now : Time) (s : State)
    (hwf : s.WF) : (upsertUserSeriesStep e emailID now s).WF := by
  unfold upsertUserSeriesStep
  split
  · exact WF_congr s _ rfl rfl
      (map_key_map_ite s.user_series_step
        (fun r => r.email = e.Email ∧ r.series_id = e.SeriesID ∧ r.step_id = e.StepID) _
        (fun r => (r.email, r.series_id, r.step_id)) (fun _ => rfl)) rfl rfl hwf
  · rename_i hany
    refine { hwf with step_key := ?_ }
    refine nodup_map_append_singleton s.user_series_step _ _ hwf.step_key (fun r hr hk => ?_)
    apply hany
    rw [List.any_eq_true]
    refine ⟨r, hr, ?_⟩
    simp only [Prod.mk.injEq] at hk
    simpa using hk

theorem setNextStep_WF (e : queuedEmail) (nextID : Option String) (nextTS : Option Time)
    (s : State) (hwf : s.WF) : (setNextStep e nextID nextTS s).WF :=
  WF_congr s _ rfl
    (map_key_map_ite s.user_series (fun us => us.email = e.Email ∧ us.series_id = e.SeriesID) _
      (fun us => (us.email, us.series_id)) (fun _ => rfl)) rfl rfl rfl hwf

theorem updateUserSeriesStep_WF (env : Env) (now : Time) (e : queuedEmail)
    (next : Option StreamStep) (emailID : Int) (s : State) (hwf : s.WF) :
    (updateUserSeriesStep env now e next emailID s).2.WF := by
  have hu := upsertUserSeriesStep_WF e emailID now s hwf
  rcases updateUserSeriesStep_cases env now e next emailID s with h | h | h
  · rw [h]; exact hwf
  · rw [h]; exact hu
  · rw [h]; exact setNextStep_WF _ _ _ _ hu

theorem collectResults_WF (env : Env) (now : Time) :
    ∀ (rs : List result) (s : State), s.WF → (collectResults env now rs s).WF := by
  intro rs
  induction rs with
  | nil => intro s hwf; exact hwf
  | cons r rs ih =>
    intro s hwf
    refine ih (collectResult env now r s) ?_
    unfold collectResult
    split
    · exact hwf
    · exact updateUserSeriesStep_WF _ _ _ _ _ _ hwf

theorem sendTask_WF (env : Env) (streams : List (String × Stream)) (now : Time)
    (e : queuedEmail) (s : State) (hwf : s.WF) : (sendTask env streams now e s).2.WF := by
  unfold sendTask
  split
  · exact hwf
  · split
    · rename_i curr next _
      have h := Send_WF env now { Template := curr.Template, Email := e.Email } s hwf
      split
      · rename_i err s' heq
        rw [heq] at h
        exact h
      · rename_i resp s' heq
        rw [heq] at h
        exact h
    · exact hwf

theorem sendTasks_WF (env : Env) (streams : List (String × Stream)) (now : Time) :
    ∀ (queue : List queuedEmail) (s : State), s.WF →
      (sendTasks env streams now queue s).2.WF := by
  intro queue
  induction queue with
  | nil => intro s hwf; exact hwf
  | cons e queue ih =>
    intro s hwf
    rw [sendTasks_cons]
    exact ih _ (sendTask_WF env streams now e s hwf)

theorem TriggerSeries_WF (env : Env) (now : Time) (s : State) (hwf : s.WF) :
    (TriggerSeries env now s).2.WF := by
  rcases TriggerSeries_cases env now s with h | ⟨streams, _, h⟩
  · rw [h]; exact hwf
  · rw [h]
    exact collectResults_WF env now _ _ (sendTasks_WF env streams now _ s hwf)

theorem exec_WF (c : Call) (s : State) (hwf : s.WF) : (c.exec s).WF := by
  cases c with
  | send env now params => exact Send_WF env now params s hwf
  | beginSeries env now params => exact BeginSeries_WF env now params s hwf
  | triggerSeries env now => exact TriggerSeries_WF env now s hwf
  | unsubscribe env now params => exact Unsubscribe_WF env now params s hwf

/-- Every store reached by calls of the four endpoints satisfies the constraints. -/
theorem runCalls_WF : ∀ (calls : List Call) (s : State), s.WF → (runCalls calls s).WF := by
  intro calls
  induction calls with
  | nil => intro s hwf; exact hwf
  | cons c calls ih => intro s hwf; exact ih (c.exec s) (exec_WF c s hwf)

/-! ## What a send leaves in `"email"` and hands to the transport -/

theorem mailLog_congr (r : String) (s t : State) (h : t.email = s.email) :
    mailLog r t = mailLog r s := by
  simp [mailLog, delivered, h]

theorem attempts_congr (r : String) (s t : State) (h : t.mailgun_calls = s.mailgun_calls) :
    attempts r t = attempts r s := by
  simp [attempts, h]

theorem mailLog_append (r : String) (s t : State) (row : EmailRow)
    (h : t.email = s.email ++ [row]) :
    mailLog r t = mailLog r s ++
      (if row.email = r ∧ row.mailgun_id.isSome = true then [(row.id, row.template_id)]
       else []) := by
  simp only [mailLog, delivered, h, List.filter_append, List.map_append]
  congr 1
  by_cases hc : row.email = r ∧ row.mailgun_id.isSome = true
  · simp [List.filter_cons, hc]
  · simp [List.filter_cons, hc]

theorem attempts_append (r : String) (s t : State) (msg : Message)
    (h : t.mailgun_calls = s.mailgun_calls ++ [msg]) :
    (attempts r t).length =
      (attempts r s).length + (if msg.recipient = r then 1 else 0) := by
  simp only [attempts, h, List.filter_append, List.length_append]
  congr 1
  by_cases hc : msg.recipient = r
  · simp [List.filter_cons, hc]
  · simp [List.filter_cons, hc]

/-- The two outcomes of `Send`.  Either it returns `Sent = true` with the
generated id, a row with a delivery id was added to `"email"`, and one message
for the recipient was handed to the transport; or it returns an error or the id
0, `"email"` has no new row or one without delivery id, and the transport got at
most one message. -/
theorem Send_cases (env : Env) (now : Time) (params : SendParams) (s : State) (hwf : s.WF) :
    ((Send env now params s).1 = .ok { ID := nextEmailID s, Sent := true } ∧
      (∃ mid, (Send env now params s).2.email = s.email ++
        [{ id := nextEmailID s, email := params.Email, template_id := params.Template.ID,
           created := now, mailgun_id := some mid, sent := some now }]) ∧
      (∃ msg, msg.recipient = params.Email ∧
        (Send env now params s).2.mailgun_calls = s.mailgun_calls ++ [msg])) ∨
    ((∀ resp, (Send env now params s).1 = .ok resp → resp.ID = 0) ∧
      ((Send env now params s).2.email = s.email ∨
        (Send env now params s).2.email = s.email ++
          [{ id := nextEmailID s, email := params.Email, template_id := params.Template.ID,
             created := now, mailgun_id := none, sent := none }]) ∧
      ((Send env now params s).2.mailgun_calls = s.mailgun_calls ∨
        ∃ msg, msg.recipient = params.Email ∧
          (Send env now params s).2.mailgun_calls = s.mailgun_calls ++ [msg])) := by
  have hid : nextEmailID (ensureUserCreated params.Email now s) = nextEmailID s := by
    simp [nextEmailID, ensureUserCreated_email_id_seq]
  cases hin : isOptedIn params.Email (ensureUserCreated params.Email now s) with
  | false =>
    right
    have h : Send env now params s =
        (.ok { ID := 0, Sent := false }, ensureUserCreated params.Email now s) := by
      simp [Send, hin]
    rw [h]
    refine ⟨fun resp hr => ?_, Or.inl (ensureUserCreated_email _ _ _),
      Or.inl (ensureUserCreated_mailgun_calls _ _ _)⟩
    injection hr with hr
    rw [← hr]
  | true =>
    cases henc : encodeEmailToken env.tokenCookie params.Email (nextEmailID s) with
    | error err =>
      right
      have h : Send env now params s = (.error err,
          (insertEmail params.Email params.Template.ID now
            (ensureUserCreated params.Email now s)).2) := by
        simp only [Send, hin, insertEmail, hid, henc]
        simp
      rw [h]
      refine ⟨fun resp hr => (by cases hr), Or.inr ?_, Or.inl ?_⟩
      · simp [insertEmail, ensureUserCreated_email, hid]
      · simp [insertEmail, ensureUserCreated_mailgun_calls]
    | ok token =>
      cases hsend : env.mgSend (composeMessage env params token) with
      | error err =>
        right
        have h : Send env now params s = (.error err,
            { (insertEmail params.Email params.Template.ID now
                (ensureUserCreated params.Email now s)).2 with
              mailgun_calls := s.mailgun_calls ++ [composeMessage env params token] }) := by
          simp only [Send, hin, insertEmail, hid, henc, hsend,
            ensureUserCreated_mailgun_calls]
          simp
        rw [h]
        refine ⟨fun resp hr => (by cases hr), Or.inr ?_, Or.inr ⟨_, rfl, rfl⟩⟩
        simp [insertEmail, ensureUserCreated_email, hid]
      | ok mailgunID =>
        left
        have hfresh : ∀ e ∈ s.email, e.id ≠ nextEmailID s := fun e he =>
          ne_of_lt (hwf.email_seq e he).2
        rw [Send_eq_of_accepted env now params s hin token henc mailgunID hsend]
        refine ⟨rfl, ⟨mailgunID, ?_⟩, ⟨_, rfl, rfl⟩⟩
        have h := markSent_fresh s.email
          { id := nextEmailID s, email := params.Email, template_id := params.Template.ID,
            created := now, mailgun_id := none, sent := none } mailgunID now hfresh
        simpa [markEmailSent, insertEmail, ensureUserCreated_email, nextEmailID,
          ensureUserCreated_email_id_seq] using h

/-- The mail of a recipient after `Send`: one more delivered row and one more
message when the send is to the recipient and returns `Sent = true`, no more
delivered row otherwise. -/
theorem Send_mail (env : Env) (now : Time) (params : SendParams) (s : State) (hwf : s.WF)
    (r : String) :
    ((Send env now params s).1 = .ok { ID := nextEmailID s, Sent := true } ∧
      mailLog r (Send env now params s).2 = mailLog r s ++
        (if params.Email = r then [(nextEmailID s, params.Template.ID)] else []) ∧
      (attempts r (Send env now params s).2).length =
        (attempts r s).length + (if params.Email = r then 1 else 0)) ∨
    ((∀ resp, (Send env now params s).1 = .ok resp → resp.ID = 0) ∧
      mailLog r (Send env now params s).2 = mailLog r s ∧
      (attempts r s).length ≤ (attempts r (Send env now params s).2).length) := by
  rcases Send_cases env now params s hwf with
    ⟨hres, ⟨mid, hem⟩, ⟨msg, hmsg, hcalls⟩⟩ | ⟨hres, hem, hcalls⟩
  · left
    refine ⟨hres, ?_, ?_⟩
    · rw [mailLog_append r s _ _ hem]
      simp
    · rw [attempts_append r s _ msg hcalls, hmsg]
  · right
    refine ⟨hres, ?_, ?_⟩
    · rcases hem with hem | hem
      · exact mailLog_congr r s _ hem
      · rw [mailLog_append r s _ _ hem]
        simp
    · rcases hcalls with hcalls | ⟨msg, _, hcalls⟩
      · rw [attempts_congr r s _ hcalls]
      · rw [attempts_append r s _ msg hcalls]
        omega

/-- The mail of a recipient after the goroutine of a queue entry: one more
delivered row, for the template of the entry's step and with the id the result
carries, and one more message, exactly when the result is for the recipient and
passes the test of the receiving loop. -/
theorem sendTask_mail (env : Env) (streams : List (String × Stream)) (now : Time)
    (e : queuedEmail) (s : State) (hwf : s.WF) (r : String) :
    mailLog r (sendTask env streams now e s).2 = mailLog r s ++
      (if (sendTask env streams now e s).1.passesFor r = true then
        [((sendTask env streams now e s).1.emailID, stepTemplate streams e)] else []) ∧
    (attempts r s).length +
        (if (sendTask env streams now e s).1.passesFor r = true then 1 else 0) ≤
      (attempts r (sendTask env streams now e s).2).length := by
  unfold sendTask
  split
  · simp [result.passesFor]
  · rename_i ser hser
    rcases findStep_cases ser e.StepID with ⟨_, hf⟩ | ⟨i, curr, _, _, _, hf⟩
    · simp only [hf]
      simp [result.passesFor]
    · simp only [hf]
      have hm := Send_mail env now { Template := curr.Template, Email := e.Email } s hwf r
      have htmpl : stepTemplate streams e = curr.Template.ID := by
        simp [stepTemplate, hser, hf]
      cases hS : Send env now { Template := curr.Template, Email := e.Email } s with
      | mk res s' =>
        rw [hS] at hm
        simp only at hm
        cases res with
        | error err =>
          rcases hm with ⟨h, _⟩ | ⟨_, hml, hat⟩
          · cases h
          · have hp : result.passesFor r ⟨e, none, 0, some err⟩ = false := by
              simp [result.passesFor]
            show mailLog r s' = mailLog r s ++
                (if result.passesFor r ⟨e, none, 0, some err⟩ = true then _ else []) ∧
              (attempts r s).length +
                (if result.passesFor r ⟨e, none, 0, some err⟩ = true then 1 else 0) ≤
                (attempts r s').length
            rw [hp]
            simp only [Bool.false_eq_true, if_false, List.append_nil, Nat.add_zero]
            exact ⟨hml, hat⟩
        | ok resp =>
          show mailLog r s' = mailLog r s ++
              (if result.passesFor r ⟨e, ser.StreamSteps[i + 1]?, resp.ID, none⟩ = true
               then [(resp.ID, stepTemplate streams e)] else []) ∧
            (attempts r s).length +
              (if result.passesFor r ⟨e, ser.StreamSteps[i + 1]?, resp.ID, none⟩ = true
               then 1 else 0) ≤ (attempts r s').length
          rcases hm with ⟨h, hml, hat⟩ | ⟨h, hml, hat⟩
          · injection h with h
            subst h
            have hpos : nextEmailID s ≠ 0 := by
              have := hwf.seq_pos
              unfold nextEmailID
              omega
            by_cases hE : e.Email = r
            · have hp : result.passesFor r
                  ⟨e, ser.StreamSteps[i + 1]?, nextEmailID s, none⟩ = true := by
                simp [result.passesFor, hE, hpos]
              rw [hp, hml, hat, htmpl]
              simp only [if_true, hE]
              exact ⟨trivial, le_refl _⟩
            · have hp : result.passesFor r
                  ⟨e, ser.StreamSteps[i + 1]?, nextEmailID s, none⟩ = false := by
                simp [result.passesFor, hE]
              rw [hp, hml, hat]
              simp only [Bool.false_eq_true, if_false, hE]
              exact ⟨trivial, le_refl _⟩
          · have h0 := h resp rfl
            have hp : result.passesFor r
                ⟨e, ser.StreamSteps[i + 1]?, resp.ID, none⟩ = false := by
              simp [result.passesFor, h0]
            rw [hp]
            simp only [Bool.false_eq_true, if_false, List.append_nil, Nat.add_zero]
            exact ⟨hml, hat⟩

/-- The mail of a recipient after the goroutines of a queue: the delivered rows
added are those of the results that are for the recipient and pass the test of
the receiving loop, one each, in the order of the results. -/
theorem sendTasks_mail (env : Env) (streams : List (String × Stream)) (now : Time)
    (r : String) :
    ∀ (queue : List queuedEmail) (s : State), s.WF →
      mailLog r (sendTasks env streams now queue s).2 = mailLog r s ++
        ((sendTasks env streams now queue s).1.filter fun x => x.passesFor r).map
          (fun x => (x.emailID, stepTemplate streams x.e)) ∧
      (attempts r s).length +
          ((sendTasks env streams now queue s).1.filter fun x => x.passesFor r).length ≤
        (attempts r (sendTasks env streams now queue s).2).length := by
  intro queue
  induction queue with
  | nil => intro s _; simp [sendTasks]
  | cons e queue ih =>
    intro s hwf
    rw [sendTasks_cons]
    have h1 := sendTask_mail env streams now e s hwf r
    have h2 := ih _ (sendTask_WF env streams now e s hwf)
    simp only [List.filter_cons]
    rw [h2.1, h1.1]
    have he : (sendTask env streams now e s).1.e = e := sendTask_e env streams now e s
    cases hp : (sendTask env streams now e s).1.passesFor r with
    | true =>
      simp only [hp, if_true, List.map_cons, List.length_cons] at h1 h2 ⊢
      rw [he]
      refine ⟨by simp, ?_⟩
      omega
    | false =>
      simp only [hp, Bool.false_eq_true, if_false, List.append_nil, Nat.add_zero] at h1 h2 ⊢
      refine ⟨trivial, ?_⟩
      omega

/-! ## A campaign runs in order -/

theorem AtStep_congr (ser : Stream) (email seriesID : String) (k : Nat) (s t : State)
    (h : enrollments email seriesID t = enrollments email seriesID s)
    (hs : AtStep ser email seriesID k s) : AtStep ser email seriesID k t := by
  unfold AtStep
  rw [h]
  exact hs

/-- With pairwise distinct step ids, a step id determines the index. -/
theorem step_index_unique (ser : Stream)
    (hids : (ser.StreamSteps.map fun st => st.ID).Nodup) (i k : Nat) (a b : StreamStep)
    (hi : ser.StreamSteps[i]? = some a) (hk : ser.StreamSteps[k]? = some b)
    (hab : a.ID = b.ID) : i = k := by
  have hlt : i < (ser.StreamSteps.map fun st => st.ID).length := by
    rw [List.length_map]
    rcases Nat.lt_or_ge i ser.StreamSteps.length with h | h
    · exact h
    · rw [List.getElem?_eq_none h] at hi; cases hi
  refine List.getElem?_inj hlt hids ?_
  rw [List.getElem?_map, List.getElem?_map, hi, hk]
  simp [hab]

/-- With pairwise distinct step ids, `findStep` for the id of the step at index
`k` returns that step and the one at index `k + 1`. -/
theorem findStep_of_nodup (ser : Stream)
    (hids : (ser.StreamSteps.map fun st => st.ID).Nodup) (k : Nat) (st : StreamStep)
    (hk : ser.StreamSteps[k]? = some st) :
    findStep ser st.ID = (some st, ser.StreamSteps[k + 1]?, true) := by
  rcases findStep_cases ser st.ID with ⟨hall, _⟩ | ⟨i, a, hi, hid, _, hf⟩
  · exact absurd rfl (hall st (List.getElem?_mem hk))
  · have hik := step_index_unique ser hids i k a st hi hk hid
    subst hik
    rw [hi] at hk
    injection hk with hk
    rw [hf, hk]

/-- The id of a step outside the first `k` is not among the ids of the first `k`. -/
theorem step_id_not_mem_take (ser : Stream)
    (hids : (ser.StreamSteps.map fun st => st.ID).Nodup) (k : Nat) (st : StreamStep)
    (hk : ser.StreamSteps[k]? = some st) :
    st.ID ∉ (ser.StreamSteps.take k).map fun st => st.ID := by
  intro hmem
  obtain ⟨a, ha, haid⟩ := List.mem_map.mp hmem
  obtain ⟨i, hi⟩ := List.mem_iff_getElem?.mp ha
  rw [List.getElem?_take] at hi
  split at hi
  · rename_i hlt
    have := step_index_unique ser hids i k a st hi hk haid
    omega
  · cases hi

theorem take_succ_map {α β : Type} (l : List α) (f : α → β) (k : Nat) (a : α)
    (hk : l[k]? = some a) : (l.take (k + 1)).map f = (l.take k).map f ++ [f a] := by
  rw [List.take_succ, hk]
  simp

theorem filter_eq_singleton {α β : Type} [DecidableEq β] (l : List α) (key : α → β)
    (hnd : (l.map key).Nodup) (p : α → Bool) (x : α) (hx : x ∈ l) (hpx : p x = true)
    (hkey : ∀ y ∈ l, p y = true → key y = key x) : l.filter p = [x] := by
  induction l with
  | nil => cases hx
  | cons a l ih =>
    rw [List.map_cons, List.nodup_cons] at hnd
    rcases List.mem_cons.mp hx with h | h
    · subst h
      have hnone : l.filter p = [] := by
        rw [List.filter_eq_nil_iff]
        intro y hy hpy
        exact hnd.1 (List.mem_map.mpr ⟨y, hy, hkey y (List.mem_cons_of_mem _ hy) hpy⟩)
      simp [List.filter_cons, hpx, hnone]
    · have hpa : p a = false := by
        cases hp : p a with
        | false => rfl
        | true =>
          exact absurd (List.mem_map.mpr ⟨x, h, (hkey a (List.mem_cons_self _ _) hp).symm⟩)
            hnd.1
      rw [List.filter_cons, hpa]
      exact ih hnd.2 h (fun y hy => hkey y (List.mem_cons_of_mem _ hy))

/-- The value of `TriggerSeries` when the campaigns of its queue resolve. -/
theorem TriggerSeries_of_resolved (env : Env) (now : Time) (s : State)
    (streams : List (String × Stream))
    (hres : resolveStreams env (queryDueEmails now s) [] = .ok streams) :
    (TriggerSeries env now s).2 =
      collectResults env now (sendTasks env streams now (queryDueEmails now s) s).1
        (sendTasks env streams now (queryDueEmails now s) s).2 := by
  by_cases hq : queryDueEmails now s = []
  · simp only [TriggerSeries, hq, if_true, sendTasks, collectResults]
  · rw [TriggerSeries_eq env now s streams hres hq]

theorem Unsubscribe_frame (env : Env) (now : Time) (params : UnsubscribeParams) (s : State) :
    (Unsubscribe env now params s).2.email = s.email ∧
    (Unsubscribe env now params s).2.mailgun_calls = s.mailgun_calls ∧
    (Unsubscribe env now params s).2.user_series_step = s.user_series_step := by
  unfold Unsubscribe
  split <;> exact ⟨rfl, rfl, rfl⟩

theorem insertUserSeries_frame (email seriesID stepID : String) (ts now : Time) (s : State) :
    (insertUserSeries email seriesID stepID ts now s).email = s.email ∧
    (insertUserSeries email seriesID stepID ts now s).mailgun_calls = s.mailgun_calls ∧
    (insertUserSeries email seriesID stepID ts now s).user_series_step = s.user_series_step ∧
    ∀ key ∈ (insertUserSeries email seriesID stepID ts now s).user_series.map
        (fun us => (us.email, us.series_id)),
      key ∈ s.user_series.map (fun us => (us.email, us.series_id)) ∨
        key = (email, seriesID) := by
  unfold insertUserSeries
  split
  · exact ⟨rfl, rfl, rfl, fun key h => Or.inl h⟩
  · refine ⟨rfl, rfl, rfl, fun key h => ?_⟩
    simp only [List.map_append, List.map_cons, List.map_nil, List.mem_append,
      List.mem_singleton] at h
    exact h

theorem BeginSeries_frame (env : Env) (now : Time) (params : TriggerSeriesParams) (s : State) :
    (BeginSeries env now params s).2.email = s.email ∧
    (BeginSeries env now params s).2.mailgun_calls = s.mailgun_calls ∧
    (BeginSeries env now params s).2.user_series_step = s.user_series_step ∧
    ∀ key ∈ (BeginSeries env now params s).2.user_series.map
        (fun us => (us.email, us.series_id)),
      key ∈ s.user_series.map (fun us => (us.email, us.series_id)) ∨
        key = (params.Email, params.SeriesName) := by
  have he := ensureUserCreated_email params.Email now s
  have hc := ensureUserCreated_mailgun_calls params.Email now s
  have hst := ensureUserCreated_user_series_step params.Email now s
  have hus := ensureUserCreated_user_series params.Email now s
  unfold BeginSeries
  simp only
  split
  · exact ⟨he, hc, hst, fun key h => Or.inl (hus ▸ h)⟩
  · split
    · exact ⟨he, hc, hst, fun key h => Or.inl (hus ▸ h)⟩
    · rename_i step _ _
      have hi := insertUserSeries_frame params.Email params.SeriesName step.ID
        (now + secondsDuration step.DelaySeconds) now (ensureUserCreated params.Email now s)
      refine ⟨hi.1.trans he, hi.2.1.trans hc, hi.2.2.1.trans hst, fun key h => ?_⟩
      rcases hi.2.2.2 key h with h' | h'
      · exact Or.inl (hus ▸ h')
      · exact Or.inr h'

/-- No receiving loop adds or removes a row of `"user_series"` or changes its key. -/
theorem collectResults_series_keys (env : Env) (now : Time) :
    ∀ (rs : List result) (s : State),
      (collectResults env now rs s).user_series.map (fun us => (us.email, us.series_id)) =
        s.user_series.map (fun us => (us.email, us.series_id)) := by
  intro rs
  induction rs with
  | nil => intro s; rfl
  | cons r rs ih =>
    intro s
    show (collectResults env now rs (collectResult env now r s)).user_series.map _ = _
    rw [ih]
    unfold collectResult
    split
    · rfl
    · have hu := (upsertUserSeriesStep_frame r.e r.emailID now s).2.1
      rcases updateUserSeriesStep_cases env now r.e r.next r.emailID s with h | h | h
      · rw [h]
      · rw [h, hu]
      · rw [h]
        show (List.map _ (upsertUserSeriesStep r.e r.emailID now s).user_series).map _ = _
        rw [hu]
        exact map_key_map_ite s.user_series
          (fun us => us.email = r.e.Email ∧ us.series_id = r.e.SeriesID) _
          (fun us => (us.email, us.series_id)) (fun _ => rfl)

theorem TriggerSeries_series_keys (env : Env) (now : Time) (s : State) :
    (TriggerSeries env now s).2.user_series.map (fun us => (us.email, us.series_id)) =
      s.user_series.map (fun us => (us.email, us.series_id)) := by
  rcases TriggerSeries_cases env now s with h | ⟨streams, _, h⟩
  · rw [h]
  · rw [h, collectResults_series_keys,
      (sendTasks_frame env streams now (queryDueEmails now s) s).1]

theorem due_series_of_only (now : Time) (s : State) (email seriesID : String)
    (honly : ∀ key ∈ s.user_series.map (fun us => (us.email, us.series_id)),
      key.1 = email → key.2 = seriesID)
    (e : queuedEmail) (he : e ∈ dueRows now s) (hE : e.Email = email) :
    e.SeriesID = seriesID := by
  obtain ⟨us, hus, _, _, _, _, _, _, _, _, hE', hS'⟩ := (mem_dueRows now s e).mp he
  have := honly (us.email, us.series_id) (List.mem_map.mpr ⟨us, hus, rfl⟩) (hE'.symm.trans hE)
  exact hS'.trans this

theorem upsertRows_new (e : queuedEmail) (emailID : Int) (now : Time)
    (rows : List UserSeriesStepRow)
    (h : e.StepID ∉ rows.map fun rec => rec.step_id) :
    upsertRows e emailID now rows =
      rows ++ [{ email := e.Email, series_id := e.SeriesID, step_id := e.StepID,
                 email_id := emailID, executed := now }] := by
  have hany : ¬ rows.any (fun r => r.step_id = e.StepID) = true := by
    intro hc
    rw [List.any_eq_true] at hc
    obtain ⟨rec, hrec, hid⟩ := hc
    exact h (List.mem_map.mpr ⟨rec, hrec, by simpa using hid⟩)
  unfold upsertRows
  rw [if_neg hany]

/-- A `TriggerSeries` either does not advance the pair and leaves its enrollment
as it is, or executes the step the enrollment stands at and moves it to the next
index. -/
theorem trigger_step (ser : Stream) (hids : (ser.StreamSteps.map fun st => st.ID).Nodup)
    (env : Env) (now : Time) (email seriesID : String) (k : Nat) (s : State) (hwf : s.WF)
    (hget : getSeries env seriesID = .ok ser)
    (hstore : ∀ stepID, env.insertStepErr ⟨email, seriesID, stepID⟩ = none ∧
      env.updateSeriesErr ⟨email, seriesID, stepID⟩ = none)
    (hat : AtStep ser email seriesID k s) :
    (advancedStep env now email seriesID s = none ∧
      AtStep ser email seriesID k (TriggerSeries env now s).2) ∨
    (∃ st, ser.StreamSteps[k]? = some st ∧
      advancedStep env now email seriesID s = some st.ID ∧
      AtStep ser email seriesID (k + 1) (TriggerSeries env now s).2) := by
  unfold advancedStep
  cases hres : resolveStreams env (queryDueEmails now s) [] with
  | error err =>
    left
    refine ⟨rfl, ?_⟩
    rcases TriggerSeries_cases env now s with h | ⟨streams, hres', _⟩
    · rw [h]; exact hat
    · rw [hres] at hres'; cases hres'
  | ok streams =>
    simp only
    cases hfind : (sendTasks env streams now (queryDueEmails now s) s).1.find? (fun r =>
        r.e.Email = email ∧ r.e.SeriesID = seriesID ∧ r.err = none ∧ r.emailID ≠ 0) with
    | none =>
      left
      refine ⟨rfl, AtStep_congr ser email seriesID k s _ ?_ hat⟩
      refine (TriggerSeries_other env now s email seriesID ?_).1
      intro streams' hres' r hr herr hid hk
      rw [hres] at hres'
      injection hres' with hres'
      subst hres'
      have := List.find?_eq_none.mp hfind r hr
      simp only [decide_eq_true_eq, not_and] at this
      exact this hk.1 hk.2 herr hid
    | some r =>
      right
      have hr := List.mem_of_find?_eq_some hfind
      have hp := List.find?_some hfind
      simp only [decide_eq_true_eq] at hp
      obtain ⟨hE, hS, herr, hid⟩ := hp
      have hre : r.e = ⟨email, seriesID, r.e.StepID⟩ := by
        cases hre' : r.e with
        | mk a b c =>
          rw [hre'] at hE hS
          simp only at hE hS
          rw [hE, hS]
      have hst1 := (hstore r.e.StepID).1
      have hst2 := (hstore r.e.StepID).2
      rw [← hre] at hst1 hst2
      obtain ⟨ser', curr, i, us, hget', _, hi, hcid, _, hnext, hus, husid, henr, _⟩ :=
        result_advances env now s hwf streams hres r hr herr hid hst1 hst2
      rw [hS, hget] at hget'
      injection hget' with hser
      subst hser
      rw [hE, hS] at hus henr
      obtain ⟨us', hus', hptr⟩ := hat
      rw [hus] at hus'
      injection hus' with hus' _
      subst hus'
      rw [husid] at hptr
      cases hk : ser.StreamSteps[k]? with
      | none => rw [hk] at hptr; cases hptr
      | some st =>
        rw [hk] at hptr
        have hst : st.ID = r.e.StepID := by
          simp only [Option.map_some', Option.some.injEq] at hptr
          exact hptr.symm
        have hik : i = k := step_index_unique ser hids i k curr st hi hk (hcid.trans hst.symm)
        subst hik
        refine ⟨st, rfl, by simp [hst], advanceRow now r.next us, henr, ?_⟩
        rw [hnext]
        rfl

/-- Every call either does not advance the pair and leaves its enrollment as it
is, or executes the step the enrollment stands at and moves it to the next
index. -/
theorem exec_step (ser : Stream) (hids : (ser.StreamSteps.map fun st => st.ID).Nodup)
    (email seriesID : String) (c : Call) (k : Nat) (s : State) (hwf : s.WF)
    (hget : getSeries c.env seriesID = .ok ser) (hstore : c.storeAnswers email seriesID)
    (hat : AtStep ser email seriesID k s) :
    (c.advancedStep email seriesID s = none ∧ AtStep ser email seriesID k (c.exec s)) ∨
    (∃ st, ser.StreamSteps[k]? = some st ∧ c.advancedStep email seriesID s = some st.ID ∧
      AtStep ser email seriesID (k + 1) (c.exec s)) := by
  cases c with
  | send env now params =>
    exact Or.inl ⟨rfl, AtStep_congr ser email seriesID k s _
      (enrollments_congr _ _ _ _ (Send_frame env now params s).2.1) hat⟩
  | unsubscribe env now params =>
    exact Or.inl ⟨rfl, AtStep_congr ser email seriesID k s _
      (enrollments_congr _ _ _ _ (Unsubscribe_user_series env now params s)) hat⟩
  | beginSeries env now params =>
    refine Or.inl ⟨rfl, AtStep_congr ser email seriesID k s _ ?_ hat⟩
    by_cases hk : params.Email = email ∧ params.SeriesName = seriesID
    · refine enrollments_congr _ _ _ _ (BeginSeries_of_enrolled env now params s ?_)
      obtain ⟨us, hus, _⟩ := hat
      rw [hk.1, hk.2, hus]
      simp
    · exact BeginSeries_other env now params s email seriesID hk
  | triggerSeries env now =>
    exact trigger_step ser hids env now email seriesID k s hwf hget hstore hat

/-- From an enrollment at index `k`, a sequence of calls executes for the pair
the steps at indices `k`, `k + 1`, .., one per advance, and leaves the enrollment
at the index after the last of them. -/
theorem run_steps (ser : Stream) (hids : (ser.StreamSteps.map fun st => st.ID).Nodup)
    (email seriesID : String) :
    ∀ (calls : List Call) (s : State) (k : Nat), s.WF → k ≤ ser.StreamSteps.length →
      AtStep ser email seriesID k s →
      (∀ c ∈ calls, getSeries c.env seriesID = .ok ser ∧ c.storeAnswers email seriesID) →
      ∃ m, advancedSteps email seriesID calls s =
          ((ser.StreamSteps.drop k).take m).map (fun st => st.ID) ∧
        k + m ≤ ser.StreamSteps.length ∧
        AtStep ser email seriesID (k + m) (runCalls calls s) := by
  intro calls
  induction calls with
  | nil =>
    intro s k _ hk hat _
    exact ⟨0, by simp [advancedSteps], hk, hat⟩
  | cons c calls ih =>
    intro s k hwf hk hat hcalls
    have hc := hcalls c (List.mem_cons_self _ _)
    have hrest : ∀ c' ∈ calls, getSeries c'.env seriesID = .ok ser ∧
        c'.storeAnswers email seriesID :=
      fun c' hc' => hcalls c' (List.mem_cons_of_mem _ hc')
    rcases exec_step ser hids email seriesID c k s hwf hc.1 hc.2 hat with
      ⟨hnone, hat'⟩ | ⟨st, hst, hsome, hat'⟩
    · obtain ⟨m, hm, hle, hfin⟩ := ih (c.exec s) k (exec_WF c s hwf) hk hat' hrest
      refine ⟨m, ?_, hle, hfin⟩
      simp only [advancedSteps, hnone, Option.toList, List.nil_append]
      exact hm
    · have hlt : k < ser.StreamSteps.length := by
        rcases Nat.lt_or_ge k ser.StreamSteps.length with h | h
        · exact h
        · rw [List.getElem?_eq_none h] at hst; cases hst
      obtain ⟨m, hm, hle, hfin⟩ := ih (c.exec s) (k + 1) (exec_WF c s hwf) hlt hat' hrest
      refine ⟨m + 1, ?_, by omega, ?_⟩
      · have hdrop : ser.StreamSteps.drop k = st :: ser.StreamSteps.drop (k + 1) := by
          rw [List.drop_eq_getElem_cons hlt]
          congr 1
          have := List.getElem?_eq_getElem hlt
          rw [hst] at this
          injection this with this
          exact this.symm
        simp only [advancedSteps, hsome, Option.toList, hm, hdrop, List.take_succ_cons,
          List.map_cons, List.singleton_append]
      · have : k + (m + 1) = k + 1 + m := by omega
        rw [this]
        exact hfin

/-- A `TriggerSeries` either does not advance the pair and leaves it as it is (no
row delivered to the recipient, no step record), or executes the step the
enrollment stands at: one row with that step's template is delivered to the
recipient, the step is recorded with the id of that row, and the enrollment moves
to the next index. -/
theorem trigger_progress (ser : Stream) (hids : (ser.StreamSteps.map fun st => st.ID).Nodup)
    (env : Env) (now : Time) (email seriesID : String) (k : Nat) (s : State)
    (hget : getSeries env seriesID = .ok ser)
    (hstore : ∀ stepID, env.insertStepErr ⟨email, seriesID, stepID⟩ = none ∧
      env.updateSeriesErr ⟨email, seriesID, stepID⟩ = none)
    (base : List (Int × String)) (sent0 : Nat)
    (hp : Progress ser email seriesID base sent0 k s) :
    (advancedStep env now email seriesID s = none ∧
      Progress ser email seriesID base sent0 k (TriggerSeries env now s).2) ∨
    (∃ st, ser.StreamSteps[k]? = some st ∧
      advancedStep env now email seriesID s = some st.ID ∧
      Progress ser email seriesID base sent0 (k + 1) (TriggerSeries env now s).2) := by
  have hwf' := TriggerSeries_WF env now s hp.wf
  obtain ⟨rows, hrows, htmpls, hrids⟩ := hp.mails
  have honly' : ∀ key ∈ (TriggerSeries env now s).2.user_series.map
      (fun us => (us.email, us.series_id)), key.1 = email → key.2 = seriesID := by
    rw [TriggerSeries_series_keys]
    exact hp.only
  unfold advancedStep
  cases hres : resolveStreams env (queryDueEmails now s) [] with
  | error err =>
    left
    refine ⟨rfl, ?_⟩
    rcases TriggerSeries_cases env now s with h | ⟨streams, hres', _⟩
    · rw [h]; exact hp
    · rw [hres] at hres'; cases hres'
  | ok streams =>
    simp only
    have hs' := TriggerSeries_of_resolved env now s streams hres
    have hmail := sendTasks_mail env streams now email (queryDueEmails now s) s hp.wf
    have hfr := collectResults_frame env now
      (sendTasks env streams now (queryDueEmails now s) s).1
      (sendTasks env streams now (queryDueEmails now s) s).2
    have hml : mailLog email (TriggerSeries env now s).2 =
        mailLog email (sendTasks env streams now (queryDueEmails now s) s).2 := by
      rw [hs']; exact mailLog_congr email _ _ hfr.2.1
    have hatt : attempts email (TriggerSeries env now s).2 =
        attempts email (sendTasks env streams now (queryDueEmails now s) s).2 := by
      rw [hs']; exact attempts_congr email _ _ hfr.2.2
    have hseries : ∀ y ∈ (sendTasks env streams now (queryDueEmails now s) s).1,
        y.passesFor email = true →
        y.e.Email = email ∧ y.e.SeriesID = seriesID ∧ y.err = none ∧ y.emailID ≠ 0 := by
      intro y hy hpy
      simp only [result.passesFor, decide_eq_true_eq] at hpy
      exact ⟨hpy.1, due_series_of_only now s email seriesID hp.only y.e
        (queryDueEmails_subset now s y.e (sendTasks_mem_e env streams now _ s y hy)) hpy.1,
        hpy.2.1, hpy.2.2⟩
    cases hfind : (sendTasks env streams now (queryDueEmails now s) s).1.find? (fun r =>
        r.e.Email = email ∧ r.e.SeriesID = seriesID ∧ r.err = none ∧ r.emailID ≠ 0) with
    | none =>
      left
      have hnone := List.find?_eq_none.mp hfind
      have hfil : (sendTasks env streams now (queryDueEmails now s) s).1.filter
          (fun x => x.passesFor email) = [] := by
        rw [List.filter_eq_nil_iff]
        intro y hy hpy
        have := hseries y hy hpy
        exact hnone y hy (by simpa using this)
      have hoth := TriggerSeries_other env now s email seriesID (by
        intro streams' hres' r hr herr hid hk
        rw [hres] at hres'
        injection hres' with hres'
        subst hres'
        exact hnone r hr (by simpa using ⟨hk.1, hk.2, herr, hid⟩))
      rw [hfil] at hmail
      simp only [List.map_nil, List.append_nil, List.length_nil, Nat.add_zero] at hmail
      refine ⟨rfl, ?_⟩
      exact { wf := hwf'
              pointer := AtStep_congr ser email seriesID k s _ hoth.1 hp.pointer
              only := honly'
              mails := ⟨rows, by rw [hml, hmail.1]; exact hrows, htmpls, by
                rw [hoth.2]; exact hrids⟩
              steps := by rw [hoth.2]; exact hp.steps
              sent := by rw [hatt]; exact le_trans hp.sent hmail.2 }
    | some x =>
      right
      have hx := List.mem_of_find?_eq_some hfind
      have hpx := List.find?_some hfind
      simp only [decide_eq_true_eq] at hpx
      obtain ⟨hE, hS, herr, hid⟩ := hpx
      have hxe : x.e = ⟨email, seriesID, x.e.StepID⟩ := by
        cases hxe' : x.e with
        | mk a b c =>
          rw [hxe'] at hE hS
          simp only at hE hS
          rw [hE, hS]
      have hst1 := (hstore x.e.StepID).1
      have hst2 := (hstore x.e.StepID).2
      rw [← hxe] at hst1 hst2
      obtain ⟨ser', curr, i, us, hget', hlook, hi, hcid, _, hnext, hus, husid, henr, hrec⟩ :=
        result_advances env now s hp.wf streams hres x hx herr hid hst1 hst2
      rw [hS, hget] at hget'
      injection hget' with hser
      subst hser
      rw [hE, hS] at hus henr hrec
      obtain ⟨us', hus', hptr⟩ := hp.pointer
      rw [hus] at hus'
      injection hus' with hus' _
      subst hus'
      rw [husid] at hptr
      cases hk : ser.StreamSteps[k]? with
      | none => rw [hk] at hptr; cases hptr
      | some st =>
        rw [hk] at hptr
        have hst : st.ID = x.e.StepID := by
          simp only [Option.map_some', Option.some.injEq] at hptr
          exact hptr.symm
        have hik : i = k := step_index_unique ser hids i k curr st hi hk (hcid.trans hst.symm)
        subst hik
        have hfil : (sendTasks env streams now (queryDueEmails now s) s).1.filter
            (fun y => y.passesFor email) = [x] := by
          refine filter_eq_singleton _ (fun y => (y.e.Email, y.e.SeriesID))
            (results_key_nodup env streams now s hp.wf) _ x hx ?_ ?_
          · simp [result.passesFor, hE, herr, hid]
          · intro y hy hpy
            have := hseries y hy hpy
            simp only [this.1, this.2.1, hE, hS]
        have hfs : findStep ser x.e.StepID = (some st, ser.StreamSteps[i + 1]?, true) := by
          rw [← hst]
          exact findStep_of_nodup ser hids i st hk
        have htmpl : stepTemplate streams x.e = st.Template.ID := by
          simp only [stepTemplate, hlook, hfs]
        rw [hfil] at hmail
        simp only [List.map_cons, List.map_nil, List.length_singleton, htmpl] at hmail
        have hnew : x.e.StepID ∉ (stepRecords email seriesID s).map fun rec => rec.step_id := by
          rw [hp.steps, ← hst]
          exact step_id_not_mem_take ser hids i st hk
        rw [upsertRows_new x.e x.emailID now _ hnew] at hrec
        refine ⟨st, rfl, by simp [hst], ?_⟩
        exact { wf := hwf'
                pointer := ⟨advanceRow now x.next us, henr, by rw [hnext]; rfl⟩
                only := honly'
                mails := ⟨rows ++ [(x.emailID, st.Template.ID)], by
                  rw [hml, hmail.1, hrows, List.append_assoc], by
                  rw [List.map_append, htmpls, take_succ_map ser.StreamSteps _ i st hk]
                  rfl, by
                  rw [hrec, List.map_append, List.map_append, hrids]
                  rfl⟩
                steps := by
                  rw [hrec, List.map_append, hp.steps,
                    take_succ_map ser.StreamSteps _ i st hk, hst]
                  rfl
                sent := by
                  rw [hatt]
                  have := hp.sent
                  omega }

/-- A state that differs from one in progress only outside the enrollment, the
mail and the records of the pair is in progress at the same index. -/
theorem Progress_congr (ser : Stream) (email seriesID : String) (base : List (Int × String))
    (sent0 : Nat) (k : Nat) (s t : State)
    (hp : Progress ser email seriesID base sent0 k s) (hwf : t.WF)
    (henr : enrollments email seriesID t = enrollments email seriesID s)
    (honly : ∀ key ∈ t.user_series.map (fun us => (us.email, us.series_id)),
      key.1 = email → key.2 = seriesID)
    (hml : mailLog email t = mailLog email s)
    (hrec : stepRecords email seriesID t = stepRecords email seriesID s)
    (hatt : (attempts email s).length ≤ (attempts email t).length) :
    Progress ser email seriesID base sent0 k t :=
  { wf := hwf
    pointer := AtStep_congr ser email seriesID k s t henr hp.pointer
    only := honly
    mails := by rw [hml, hrec]; exact hp.mails
    steps := by rw [hrec]; exact hp.steps
    sent := le_trans hp.sent hatt }

/-- Every call that is no other source of mail for the recipient either does not
advance the pair and leaves it as it is, or executes the step the enrollment
stands at, as `trigger_progress` describes. -/
theorem exec_progress (ser : Stream) (hids : (ser.StreamSteps.map fun st => st.ID).Nodup)
    (email seriesID : String) (c : Call) (k : Nat) (s : State)
    (hget : getSeries c.env seriesID = .ok ser)
    (hsrc : c.onlySeries email seriesID = true) (hstore : c.storeAnswers email seriesID)
    (base : List (Int × String)) (sent0 : Nat)
    (hp : Progress ser email seriesID base sent0 k s) :
    (c.advancedStep email seriesID s = none ∧
      Progress ser email seriesID base sent0 k (c.exec s)) ∨
    (∃ st, ser.StreamSteps[k]? = some st ∧ c.advancedStep email seriesID s = some st.ID ∧
      Progress ser email seriesID base sent0 (k + 1) (c.exec s)) := by
  cases c with
  | send env now params =>
    left
    refine ⟨rfl, ?_⟩
    have hne : params.Email ≠ email := by simpa [Call.onlySeries] using hsrc
    have hf := Send_frame env now params s
    have hm : mailLog email (Send env now params s).2 = mailLog email s ∧
        (attempts email s).length ≤ (attempts email (Send env now params s).2).length := by
      rcases Send_mail env now params s hp.wf email with ⟨_, h1, h2⟩ | ⟨_, h1, h2⟩
      · rw [if_neg hne] at h1 h2
        exact ⟨by simpa using h1, by omega⟩
      · exact ⟨h1, h2⟩
    exact Progress_congr ser email seriesID base sent0 k s _ hp (Send_WF env now params s hp.wf)
      (enrollments_congr _ _ _ _ hf.2.1) (by rw [show (Call.send env now params).exec s =
        (Send env now params s).2 from rfl, hf.2.1]; exact hp.only) hm.1
      (stepRecords_congr _ _ _ _ hf.2.2.1) hm.2
  | unsubscribe env now params =>
    left
    refine ⟨rfl, ?_⟩
    have hf := Unsubscribe_frame env now params s
    have hus := Unsubscribe_user_series env now params s
    exact Progress_congr ser email seriesID base sent0 k s _ hp (Unsubscribe_WF env now params s hp.wf)
      (enrollments_congr _ _ _ _ hus) (by rw [show (Call.unsubscribe env now params).exec s =
        (Unsubscribe env now params s).2 from rfl, hus]; exact hp.only)
      (mailLog_congr email s _ hf.1) (stepRecords_congr _ _ _ _ hf.2.2)
      (le_of_eq (congrArg List.length (attempts_congr email s _ hf.2.1).symm))
  | beginSeries env now params =>
    left
    refine ⟨rfl, ?_⟩
    have hf := BeginSeries_frame env now params s
    have hsrc' : params.Email ≠ email ∨ params.SeriesName = seriesID := by
      simpa [Call.onlySeries] using hsrc
    have henr : enrollments email seriesID (BeginSeries env now params s).2 =
        enrollments email seriesID s := by
      by_cases hk : params.Email = email ∧ params.SeriesName = seriesID
      · refine enrollments_congr _ _ _ _ (BeginSeries_of_enrolled env now params s ?_)
        obtain ⟨us, hus, _⟩ := hp.pointer
        rw [hk.1, hk.2, hus]
        simp
      · exact BeginSeries_other env now params s email seriesID hk
    refine Progress_congr ser email seriesID base sent0 k s _ hp (BeginSeries_WF env now params s hp.wf)
      henr ?_ (mailLog_congr email s _ hf.1) (stepRecords_congr _ _ _ _ hf.2.2.1)
      (le_of_eq (congrArg List.length (attempts_congr email s _ hf.2.1).symm))
    intro key hkey hke
    rcases hf.2.2.2 key hkey with h | h
    · exact hp.only key h hke
    · rw [h] at hke ⊢
      rcases hsrc' with h' | h'
      · exact absurd hke h'
      · exact h'
  | triggerSeries env now =>
    exact trigger_progress ser hids env now email seriesID k s hget hstore base sent0 hp

/-- From a pair in progress at index `k`, a sequence of calls executes the steps
at indices `k`, `k + 1`, .., one per advance, and leaves the pair in progress at
the index after the last of them. -/
theorem run_progress (ser : Stream) (hids : (ser.StreamSteps.map fun st => st.ID).Nodup)
    (email seriesID : String) (base : List (Int × String)) (sent0 : Nat) :
    ∀ (calls : List Call) (s : State) (k : Nat), k ≤ ser.StreamSteps.length →
      Progress ser email seriesID base sent0 k s →
      (∀ c ∈ calls, getSeries c.env seriesID = .ok ser ∧
        c.onlySeries email seriesID = true ∧ c.storeAnswers email seriesID) →
      ∃ m, advancedSteps email seriesID calls s =
          ((ser.StreamSteps.drop k).take m).map (fun st => st.ID) ∧
        k + m ≤ ser.StreamSteps.length ∧
        Progress ser email seriesID base sent0 (k + m) (runCalls calls s) := by
  intro calls
  induction calls with
  | nil =>
    intro s k hk hp _
    exact ⟨0, by simp [advancedSteps], hk, hp⟩
  | cons c calls ih =>
    intro s k hk hp hcalls
    have hc := hcalls c (List.mem_cons_self _ _)
    have hrest : ∀ c' ∈ calls, getSeries c'.env seriesID = .ok ser ∧
        c'.onlySeries email seriesID = true ∧ c'.storeAnswers email seriesID :=
      fun c' hc' => hcalls c' (List.mem_cons_of_mem _ hc')
    rcases exec_progress ser hids email seriesID c k s hc.1 hc.2.1 hc.2.2 base sent0 hp with
      ⟨hnone, hp'⟩ | ⟨st, hst, hsome, hp'⟩
    · obtain ⟨m, hm, hle, hfin⟩ := ih (c.exec s) k hk hp' hrest
      refine ⟨m, ?_, hle, hfin⟩
      simp only [advancedSteps, hnone, Option.toList, List.nil_append]
      exact hm
    · have hlt : k < ser.StreamSteps.length := by
        rcases Nat.lt_or_ge k ser.StreamSteps.length with h | h
        · exact h
        · rw [List.getElem?_eq_none h] at hst; cases hst
      obtain ⟨m, hm, hle, hfin⟩ := ih (c.exec s) (k + 1) hlt hp' hrest
      refine ⟨m + 1, ?_, by omega, ?_⟩
      · have hdrop : ser.StreamSteps.drop k = st :: ser.StreamSteps.drop (k + 1) := by
          rw [List.drop_eq_getElem_cons hlt]
          congr 1
          have := List.getElem?_eq_getElem hlt
          rw [hst] at this
          injection this with this
          exact this.symm
        simp only [advancedSteps, hsome, Option.toList, hm, hdrop, List.take_succ_cons,
          List.map_cons, List.singleton_append]
      · have : k + (m + 1) = k + 1 + m := by omega
        rw [this]
        exact hfin

/-- C9 (amended). Let a campaign have at least one step and pairwise distinct
step ids, and let `BeginSeries` enroll, in a store that satisfies its
constraints, a recipient not yet enrolled in the campaign.  Take any sequence of
calls that run one after the other, in which the campaign resolves to the same
definition and the store executes the statements of `updateUserSeriesStep` for
the pair.  With `m` the number of successful advances of the pair: the steps
advanced from are, in order, the first `m` steps of the campaign, so none is
skipped or repeated; the enrollment's next-step id is that of the step at index
`m`; and it is null (the enrollment is completed) exactly when `m` is the number
of steps.

When, moreover, nothing but the campaign sends to the recipient (the recipient
was in no campaign, the pair had no step execution records, and no call is a
direct `Send` to the recipient or enrolls the recipient in another campaign),
the steps are executed in the store as well: the rows of `"email"` delivered to
the recipient are those from before followed by exactly `m` rows, in order one
per step, each with the template of its step; the step execution records of the
pair are those `m` steps in order, each carrying the id of the row delivered for
it; and the transport was handed at least `m` more messages for the
recipient. -/
theorem series_runs_in_order (env : Env) (now : Time) (params : TriggerSeriesParams)
    (s : State) (ser : Stream) (first : StreamStep) (rest : List StreamStep) (hwf : s.WF)
    (hget : getSeries env params.SeriesName = .ok ser)
    (hsteps : ser.StreamSteps = first :: rest)
    (hids : (ser.StreamSteps.map fun st => st.ID).Nodup)
    (hfresh : enrollments params.Email params.SeriesName s = [])
    (calls : List Call)
    (hcalls : ∀ c ∈ calls, getSeries c.env params.SeriesName = .ok ser ∧
      c.storeAnswers params.Email params.SeriesName) :
    ∃ us m,
      enrollments params.Email params.SeriesName
        (runCalls calls (BeginSeries env now params s).2) = [us] ∧
      (advancedSteps params.Email params.SeriesName calls
        (BeginSeries env now params s).2).length = m ∧
      advancedSteps params.Email params.SeriesName calls (BeginSeries env now params s).2 =
        (ser.StreamSteps.take m).map (fun st => st.ID) ∧
      m ≤ ser.StreamSteps.length ∧
      us.next_step_id = (ser.StreamSteps[m]?).map (fun st => st.ID) ∧
      (us.next_step_id = none ↔ m = ser.StreamSteps.length) ∧
      ((∀ row ∈ s.user_series, row.email ≠ params.Email) →
        stepRecords params.Email params.SeriesName s = [] →
        (∀ c ∈ calls, c.onlySeries params.Email params.SeriesName = true) →
        ∃ rows,
          mailLog params.Email (runCalls calls (BeginSeries env now params s).2) =
            mailLog params.Email s ++ rows ∧
          rows.map Prod.snd = (ser.StreamSteps.take m).map (fun st => st.Template.ID) ∧
          (stepRecords params.Email params.SeriesName
              (runCalls calls (BeginSeries env now params s).2)).map (fun rec => rec.step_id) =
            (ser.StreamSteps.take m).map (fun st => st.ID) ∧
          (stepRecords params.Email params.SeriesName
              (runCalls calls (BeginSeries env now params s).2)).map (fun rec => rec.email_id) =
            rows.map Prod.fst ∧
          (attempts params.Email s).length + m ≤
            (attempts params.Email (runCalls calls (BeginSeries env now params s).2)).length) := by
  have hf := BeginSeries_frame env now params s
  have hat0 : AtStep ser params.Email params.SeriesName 0 (BeginSeries env now params s).2 :=
    ⟨_, BeginSeries_fresh env now params s ser first rest hget hsteps hfresh, by
      rw [hsteps]; simp⟩
  obtain ⟨m, hm, hle, hfin⟩ := run_steps ser hids params.Email params.SeriesName calls
    _ 0 (BeginSeries_WF env now params s hwf) (Nat.zero_le _) hat0 hcalls
  simp only [Nat.zero_add] at hle hfin
  rw [List.drop_zero] at hm
  obtain ⟨us, hus, hptr⟩ := hfin
  have hlen : (advancedSteps params.Email params.SeriesName calls
      (BeginSeries env now params s).2).length = m := by
    rw [hm, List.length_map, List.length_take]
    omega
  refine ⟨us, m, hus, hlen, hm, hle, hptr, ?_, ?_⟩
  · rw [hptr]
    constructor
    · intro h
      rcases Nat.lt_or_ge m ser.StreamSteps.length with hlt | hge
      · rw [List.getElem?_eq_getElem hlt] at h
        cases h
      · omega
    · intro h
      rw [List.getElem?_eq_none (by omega)]
      rfl
  · intro hnew hnorec honly
    have hp : Progress ser params.Email params.SeriesName (mailLog params.Email s)
        (attempts params.Email s).length 0 (BeginSeries env now params s).2 :=
      { wf := BeginSeries_WF env now params s hwf
        pointer := hat0
        only := by
          intro key hkey hke
          rcases hf.2.2.2 key hkey with h | h
          · obtain ⟨row, hrow, hk⟩ := List.mem_map.mp h
            rw [← hk] at hke
            exact absurd hke (hnew row hrow)
          · rw [h]
        mails := ⟨[], by rw [mailLog_congr params.Email s _ hf.1, List.append_nil], rfl, by
          rw [stepRecords_congr _ _ _ s hf.2.2.1, hnorec]
          rfl⟩
        steps := by rw [stepRecords_congr _ _ _ s hf.2.2.1, hnorec]; rfl
        sent := le_of_eq (congrArg List.length (attempts_congr params.Email s _ hf.2.1).symm) }
    obtain ⟨m', hm', hle', hfin'⟩ := run_progress ser hids params.Email params.SeriesName
      (mailLog params.Email s) (attempts params.Email s).length calls _ 0 (Nat.zero_le _) hp
      (fun c hc => ⟨(hcalls c hc).1, honly c hc, (hcalls c hc).2⟩)
    simp only [Nat.zero_add] at hle' hfin'
    rw [List.drop_zero] at hm'
    have hmm : m' = m := by
      have h := congrArg List.length hm'
      rw [hlen, List.length_map, List.length_take] at h
      omega
    subst hmm
    obtain ⟨rows, hrows, htmpls, hrids⟩ := hfin'.mails
    exact ⟨rows, hrows, htmpls, hfin'.steps, hrids, hfin'.sent⟩

/-! ## Overlapping calls -/

/-- A run of whole calls is the run of the calls one after the other. -/
theorem runEvents_calls (calls : List Call) :
    ∀ w : World, (runEvents (calls.map Event.call) w).store = runCalls calls w.store ∧
      (runEvents (calls.map Event.call) w).inflight = w.inflight := by
  induction calls with
  | nil => intro w; exact ⟨rfl, rfl⟩
  | cons c calls ih =>
    intro w
    exact ih (Event.exec (.call c) w)

/-- A `TriggerSeries` call is its two events, one right after the other. -/
theorem TriggerSeries_split (env : Env) (now : Time) (s : State) :
    (runEvents [.triggerSends env now, .triggerReceive 0 now] (World.idle s)).store =
      (TriggerSeries env now s).2 := by
  by_cases hq : queryDueEmails now s = []
  · simp [runEvents, Event.exec, World.idle, TriggerSeries, hq]
  · cases hres : resolveStreams env (queryDueEmails now s) [] with
    | error err => simp [runEvents, Event.exec, World.idle, TriggerSeries, hq, hres]
    | ok streams => simp [runEvents, Event.exec, World.idle, TriggerSeries, hq, hres]

/-! ## Instances on the sample data -/

theorem sampleOptedOut_WF : sampleOptedOut.WF := by
  refine ⟨?_, ?_, ?_, ?_, ?_, ?_⟩ <;> simp [sampleOptedOut, State.init]

theorem sampleDue_WF (stepID : String) : (sampleDue stepID).WF := by
  refine ⟨?_, ?_, ?_, ?_, ?_, ?_⟩ <;> simp [sampleDue, State.init]

theorem decodeEmailToken_drops_error_witness :
    decodeEmailToken sampleEnv.tokenCookie "" = ("", 0, none) ∧
    ∀ now s, Unsubscribe sampleEnv now { Token := "" } s =
      (none, insertUnsubscribeEvent "" 0 now (optOut "" now s)) :=
  decodeEmailToken_drops_error sampleEnv "" "the value is not valid" emailTokenData.zero
    (by decide)

theorem Send_not_opted_in_witness :
    (Send sampleEnv 10 { Template := sampleTemplate, Email := "bob@example.com" }
        sampleOptedOut).1 = .ok { ID := 0, Sent := false } ∧
    (Send sampleEnv 10 { Template := sampleTemplate, Email := "bob@example.com" }
        sampleOptedOut).2.email = [] ∧
    (Send sampleEnv 10 { Template := sampleTemplate, Email := "bob@example.com" }
        sampleOptedOut).2.mailgun_calls = [] :=
  have h := Send_not_opted_in sampleEnv 10
    { Template := sampleTemplate, Email := "bob@example.com" } sampleOptedOut sampleOptedOut_WF
    { email := "bob@example.com", optin := false, optin_changed := 3 }
    (List.mem_singleton.mpr rfl) rfl rfl
  ⟨h.1, h.2.1, h.2.2.1⟩

theorem Send_delivers_witness :
    (Send sampleEnv 10 { Template := sampleTemplate, Email := "ann@example.com" }
        State.init).1 = .ok { ID := 1, Sent := true } ∧
    (Send sampleEnv 10 { Template := sampleTemplate, Email := "ann@example.com" }
        State.init).2.email =
      [{ id := 1, email := "ann@example.com", template_id := "welcome", created := 10,
         mailgun_id := some "mg-1", sent := some 10 }] :=
  have h := Send_delivers sampleEnv 10
    { Template := sampleTemplate, Email := "ann@example.com" } State.init State.init_WF
    (fun _ hu => by cases hu) "t1" rfl "mg-1" rfl
  ⟨h.1, h.2.1⟩

theorem decode_encode_roundtrip_witness :
    encodeEmailToken sampleCookie "ann@example.com" 1 = .ok "t1" ∧
    decodeEmailToken sampleCookie "t1" = ("ann@example.com", 1, none) :=
  ⟨rfl, decode_encode_roundtrip sampleCookie sampleCookie_inverts "ann@example.com" 1 "t1" rfl⟩

theorem TriggerSeries_failed_unchanged_witness :
    enrollments "ann@example.com" "onboarding" (TriggerSeries sampleEnv 10 (sampleDue "gone")).2 =
      enrollments "ann@example.com" "onboarding" (sampleDue "gone") ∧
    stepRecords "ann@example.com" "onboarding" (TriggerSeries sampleEnv 10 (sampleDue "gone")).2 =
      stepRecords "ann@example.com" "onboarding" (sampleDue "gone") ∧
    ∀ now', 10 ≤ now' →
      sampleEntry "gone" ∈ dueRows now' (TriggerSeries sampleEnv 10 (sampleDue "gone")).2 :=
  TriggerSeries_failed_unchanged sampleEnv 10 (sampleDue "gone") (sampleDue_WF "gone")
    [("onboarding", sampleStream)] rfl sampleFailed (by decide) (by decide)

theorem TriggerSeries_advances_witness :
    enrollments "ann@example.com" "onboarding"
        (TriggerSeries sampleEnv 10 (sampleDue "step1")).2 =
      [{ email := "ann@example.com", series_id := "onboarding", next_step_id := some "step2",
         next_step_ts := some 60000000010, started := 0 }] := by
  obtain ⟨ser, curr, i, us, _, _, _, _, _, hus, _, _, hrange, _⟩ :=
    TriggerSeries_advances sampleEnv 10 (sampleDue "step1") (sampleDue_WF "step1")
      [("onboarding", sampleStream)] rfl sampleSent (by decide) rfl (by decide) ⟨rfl, rfl⟩
  have h : enrollments "ann@example.com" "onboarding" (sampleDue "step1") = [us] := hus
  have h' : enrollments "ann@example.com" "onboarding" (sampleDue "step1") =
      [{ email := "ann@example.com", series_id := "onboarding",
         next_step_id := some "step1", next_step_ts := some 0, started := 0 }] := by decide
  rw [h'] at h
  injection h with h _
  have hr := hrange { ID := "step2", DelaySeconds := 60, Template := followupTemplate } rfl
    (by decide) (by decide)
  rw [← h] at hr
  exact hr

/-- The three ways in which the claim C6 fails on the code.
* A delay beyond the range of `time.Duration`: the next step of `longStream` is
  due 9223372037 seconds after the first; the send succeeds with id 1, and the
  next-due time written is `10 - 9223372036709551616`, before `now = 10`, not
  `now` plus the delay.
* Overlapping calls: in `lateReceive` the enrollment is completed after the
  fourth event (next-step id null, last step delivered), and the receiving loop
  of the overlapping call then sets the next step to `step2` again, so the due
  query returns the enrollment.
* A store that rejects the `UPDATE "user_series"`: the send succeeds with id 1
  and the enrollment still stands at `step1`. -/
theorem TriggerSeries_advances_counterexample :
    ((sendTasks longEnv [("onboarding", longStream)] 10
          (queryDueEmails 10 (sampleDue "step1")) (sampleDue "step1")).1.map
        (fun r => (r.e.StepID, r.emailID, r.err)) = [("step1", 1, none)] ∧
      (enrollments "ann@example.com" "onboarding"
          (TriggerSeries longEnv 10 (sampleDue "step1")).2).map
        (fun us => (us.next_step_id, us.next_step_ts)) =
          [(some "step2", some (10 - 9223372036709551616))] ∧
      (10 : Int) - 9223372036709551616 ≠ 10 + 9223372037 * 1000000000) ∧
    ((enrollments "ann@example.com" "onboarding"
          (runEvents (lateReceive.take 4) (World.idle quickEnrolled)).store).map
        (fun us => (us.next_step_id, us.next_step_ts)) = [(none, none)] ∧
      (mailLog "ann@example.com"
          (runEvents (lateReceive.take 4) (World.idle quickEnrolled)).store).map Prod.snd =
        ["welcome", "welcome", "followup"] ∧
      sampleEntry "step2" ∈ queryDueEmails 10
        (runEvents lateReceive (World.idle quickEnrolled)).store) ∧
    ((sendTasks faultyEnv [("onboarding", sampleStream)] 5
          (queryDueEmails 5 sampleEnrolled) sampleEnrolled).1.map
        (fun r => (r.e.StepID, r.emailID, r.err)) = [("step1", 1, none)] ∧
      (enrollments "ann@example.com" "onboarding"
          (TriggerSeries faultyEnv 5 sampleEnrolled).2).map
        (fun us => us.next_step_id) = [some "step1"]) := by
  refine ⟨⟨by decide, by decide, by decide⟩, ⟨by decide, by decide, by decide⟩,
    ⟨by decide, by decide⟩⟩

theorem BeginSeries_twice_witness :
    enrollments "ann@example.com" "onboarding"
        (BeginSeries sampleEnv 99 { Email := "ann@example.com", SeriesName := "onboarding" }
          (BeginSeries sampleEnv 10 { Email := "ann@example.com", SeriesName := "onboarding" }
            State.init).2).2 =
      [{ email := "ann@example.com", series_id := "onboarding", next_step_id := some "step1",
         next_step_ts := some 10, started := 10 }] :=
  (BeginSeries_twice sampleEnv sampleEnv 10 99
    { Email := "ann@example.com", SeriesName := "onboarding" } State.init State.init_WF
    sampleStream _ _ rfl rfl).2.2.1 rfl

theorem Unsubscribe_twice_witness :
    isOptedIn "ann@example.com"
        (Unsubscribe sampleEnv 20 { Token := "t1" } (sampleDue "step1")).2 = false ∧
    (Unsubscribe sampleEnv 30 { Token := "t1" }
        (Unsubscribe sampleEnv 20 { Token := "t1" } (sampleDue "step1")).2).2.user =
      (Unsubscribe sampleEnv 20 { Token := "t1" } (sampleDue "step1")).2.user :=
  have h := Unsubscribe_twice sampleEnv 20 30 "t1" "ann@example.com" 1 (sampleDue "step1")
    (by decide)
  ⟨h.2.2.1, h.2.2.2.2.2.2.1⟩

theorem series_runs_in_order_witness :
    advancedSteps "ann@example.com" "onboarding" sampleCalls sampleEnrolled =
      ["step1", "step2"] ∧
    ∃ us, enrollments "ann@example.com" "onboarding" (runCalls sampleCalls sampleEnrolled)
        = [us] ∧
      us.next_step_id = none ∧
      (mailLog "ann@example.com" (runCalls sampleCalls sampleEnrolled)).map Prod.snd =
        ["welcome", "followup"] := by
  have hsteps : advancedSteps "ann@example.com" "onboarding" sampleCalls sampleEnrolled =
      ["step1", "step2"] := by decide
  obtain ⟨us, m, hus, hlen, _, _, _, hdone, hstore⟩ :=
    series_runs_in_order sampleEnv 0 sampleParams State.init
      sampleStream _ _ State.init_WF rfl rfl (by decide) rfl sampleCalls (by
        intro c hc
        simp only [sampleCalls, List.mem_cons, List.mem_singleton, List.not_mem_nil,
          or_false] at hc
        rcases hc with h | h <;> rw [h] <;> exact ⟨rfl, fun _ => ⟨rfl, rfl⟩⟩)
  have hm : m = 2 := by
    rw [← hlen]
    show (advancedSteps "ann@example.com" "onboarding" sampleCalls sampleEnrolled).length = 2
    rw [hsteps]
    rfl
  subst hm
  obtain ⟨rows, hrows, htmpls, _⟩ := hstore (fun _ h => by cases h) rfl (by
    intro c hc
    simp only [sampleCalls, List.mem_cons, List.mem_singleton, List.not_mem_nil,
      or_false] at hc
    rcases hc with h | h <;> rw [h] <;> rfl)
  refine ⟨hsteps, us, hus, hdone.mpr rfl, ?_⟩
  have hml : mailLog "ann@example.com" (runCalls sampleCalls sampleEnrolled) = rows := hrows
  rw [hml, htmpls]
  rfl

/-- The two ways in which the claim C9 fails on the code.
* Overlapping calls: in `overlappingTriggers` both calls find the enrollment at
  `step1`; both sends succeed (ids 1 and 2), so the first step is delivered
  twice, and after these two successful advances of a campaign of two steps the
  enrollment stands at `step2`, not completed.
* A store that rejects the `UPDATE "user_series"`: in `faultyCalls`, run one
  after the other, the first trigger delivers `step1` and does not move the
  enrollment, and the second delivers `step1` again. -/
theorem series_runs_in_order_counterexample :
    ((runEvents (overlappingTriggers.take 2) (World.idle sampleEnrolled)).inflight.map
        (fun f => f.results.map fun r => (r.e.StepID, r.emailID, r.err)) =
          [[("step1", 1, none)], [("step1", 2, none)]] ∧
      (mailLog "ann@example.com"
          (runEvents overlappingTriggers (World.idle sampleEnrolled)).store).map Prod.snd =
        ["welcome", "welcome"] ∧
      (enrollments "ann@example.com" "onboarding"
          (runEvents overlappingTriggers (World.idle sampleEnrolled)).store).map
        (fun us => us.next_step_id) = [some "step2"]) ∧
    (advancedSteps "ann@example.com" "onboarding" faultyCalls sampleEnrolled =
        ["step1", "step1"] ∧
      (mailLog "ann@example.com" (runCalls faultyCalls sampleEnrolled)).map Prod.snd =
        ["welcome", "welcome"]) := by
  refine ⟨⟨by decide, by decide, by decide⟩, by decide, by decide⟩

end Drip
